import Mathlib

/-!
Verification development for the plugin / signature engine of
`lib/cuckoo/core/plugins.py`.

The Python source is shallowly embedded: each class method that the claims
touch becomes an executable Lean definition over explicit state.  Signature
handlers (`on_process`, `on_call`, `on_signature`, `on_complete`) are opaque
third-party code in the source; they are modelled as pure functions returning
`Except Unit Bool` — `.error ()` models a raised exception, `.ok b` models a
returned value whose Python truthiness is `b`.
-/

namespace Cuckoo

/-- A parsed `StrictVersion` value: dotted numeric `major.minor.patch`.
Version-string parsing itself is an external collaborator in the source
(`distutils.version`); only the parse result matters to the engine. -/
structure SVer where
  major : Nat
  minor : Nat
  patch : Nat
deriving DecidableEq, Repr

/-- Strict-version comparison, lexicographic on (major, minor, patch). -/
def sverLt (a b : SVer) : Bool :=
  Nat.blt a.major b.major ||
    (Nat.beq a.major b.major &&
      (Nat.blt a.minor b.minor ||
        (Nat.beq a.minor b.minor && Nat.blt a.patch b.patch)))

/-- A version field of a signature (`signature.minimum` / `signature.maximum`):
either not declared (falsy in Python), declared but unparseable
(`StrictVersion` raises `ValueError`), or a parsed version. -/
inductive VField where
  | unset
  | invalid
  | ver (v : SVer)
deriving DecidableEq, Repr

/-- One call record of the behavioral trace
(`{"api": ..., "category": ...}`). -/
structure CallRec where
  api : String
  category : String
deriving DecidableEq, Repr

/-- One process record of the behavioral trace. -/
structure ProcRec where
  pid : Nat
  process_name : String
  calls : List CallRec
deriving DecidableEq, Repr

/-- The static description of one signature class: its declared attributes
and its (opaque) handler behaviors.  `is_active` models the result of the
rule-specific `is_active()` predicate, `has_run` models
`hasattr(signature, "run")`. -/
structure SigSpec where
  name : String
  severity : Nat
  enabled : Bool
  minimum : VField
  maximum : VField
  has_run : Bool
  filter_processnames : List String
  filter_apinames : List String
  filter_categories : List String
  is_active : Bool
  quickout : Bool
  on_process : ProcRec → Except Unit Bool
  on_call : CallRec → ProcRec → Except Unit Bool
  on_signature : String → Except Unit Bool
  on_complete : Except Unit Bool

/-- One instantiated signature inside a `RunSignatures` run: the spec plus
the mutable per-run attributes (`matched`, `pid`, `cid`). -/
structure SigState where
  spec : SigSpec
  matched : Bool
  pid : Nat
  cid : Nat

/-- A matched detection as it ends up in the results map: the signature's
name and severity. -/
structure Det where
  name : String
  severity : Nat
deriving DecidableEq, Repr

/-- Kind of a ghost observation event: a dispatch through `call_signature`
reached the wrapper, or the handler body was actually invoked. -/
inductive EvKind where
  | dispatched
  | invoked
deriving DecidableEq, Repr

/-- A ghost observation event recording one dispatch: which signature, which
handler, and (for `on_signature` / `on_call`) the payload identifier. -/
structure Ev where
  kind : EvKind
  sig : String
  handler : String
  payload : Option String
deriving DecidableEq, Repr

/-- A handler selector: the handler's name, its log payload, and the function
that extracts and applies the handler of a given signature. -/
structure HSel where
  tag : String
  payload : Option String
  fn : SigSpec → Except Unit Bool

/-- The mutable state of one `RunSignatures` object during `run()`:
`self.signatures` and `self.matched` (the matched-detections list, in
first-matched order). -/
structure Engine where
  sigs : List SigState
  order : List Det

/-- Replace the element at index `i` by `f` of it; out-of-range indices leave
the list unchanged (models mutating one attribute of one list element). -/
def modifySig (l : List SigState) (i : Nat) (f : SigState → SigState) :
    List SigState :=
  match l.get? i with
  | some s => l.set i (f s)
  | none => l

/-- Set the `matched` attribute of signature `i` (the assignment
`signature.matched = True` in `call_signature`). -/
def markMatchedAt (e : Engine) (i : Nat) : Engine :=
  { e with sigs := modifySig e.sigs i (fun s => { s with matched := true }) }

/-- Modelled from the spec: the recording of a matched detection into the
engine's `matched` list.  In the source this recording is performed by the
`Signature` base class (`lib/cuckoo/common/abstracts.py`), which is not under
`src/`; `plugins.py` only sorts and stores `self.matched`.  Per the spec, on a
signature's first transition of `matched` to true, a detection
`{name, severity}` is appended, so ties in the final stable severity sort
preserve first-matched order. -/
def recordMatch (e : Engine) (sp : SigSpec) (was : Bool) : Engine :=
  if was then e else { e with order := e.order ++ [⟨sp.name, sp.severity⟩] }

/-- Set the `pid` attribute of signature `i` (`sig.pid = proc["pid"]`). -/
def setPidAt (e : Engine) (i : Nat) (p : Nat) : Engine :=
  { e with sigs := modifySig e.sigs i (fun s => { s with pid := p }) }

/-- Set the `cid` attribute of signature `i` (`sig.cid = idx`). -/
def setCidAt (e : Engine) (i : Nat) (c : Nat) : Engine :=
  { e with sigs := modifySig e.sigs i (fun s => { s with cid := c }) }

/-- Run a dispatch step over a sequence of signature indices, threading the
engine state and concatenating the emitted events (the shape of every
`for sig in self.signatures: self.call_signature(...)` loop). -/
def runSeq (step : Engine → Nat → Engine × List Ev) :
    Engine → List Nat → Engine × List Ev
  | e, [] => (e, [])
  | e, j :: js =>
    let r := step e j
    let r2 := runSeq step r.1 js
    (r2.1, r.2 ++ r2.2)

/-- The handler selector used by the recursive match cascade:
`sig.on_signature` with the just-matched signature as payload. -/
def onSigSel (nm : String) : HSel :=
  ⟨"on_signature", some nm, fun sp => sp.on_signature nm⟩

/-- `RunSignatures.call_signature`: the uniform match wrapper.  It dispatches
one handler of signature `i`; if the signature `is_active()` and the handler
returns truthy, `matched` is set and every signature in `self.signatures` is
recursively notified through the same wrapper via `on_signature`.  Any
exception from the handler is caught (`.error` branch) and treated as no
match.  `fuel` bounds the cascade recursion depth (the source recursion is
unbounded); all theorems hold for every sufficiently large fuel. -/
def call_signature : Nat → Engine → Nat → HSel → Engine × List Ev
  | 0, e, _, _ => (e, [])
  | Nat.succ fuel, e, i, h =>
    match e.sigs.get? i with
    | none => (e, [])
    | some s =>
      let dEv : Ev := ⟨.dispatched, s.spec.name, h.tag, h.payload⟩
      if s.spec.is_active then
        let iEv : Ev := ⟨.invoked, s.spec.name, h.tag, h.payload⟩
        match h.fn s.spec with
        | .error _ => (e, [dEv, iEv])
        | .ok false => (e, [dEv, iEv])
        | .ok true =>
          let e2 := recordMatch (markMatchedAt e i) s.spec s.matched
          let r := runSeq
            (fun e3 j => call_signature fuel e3 j (onSigSel s.spec.name))
            e2 (List.range e2.sigs.length)
          (r.1, dEv :: iEv :: r.2)
      else (e, [dEv])

/-- `RunSignatures.check_signature_version`, minimum branch: drop when the
engine is strictly older than the declared minimum, when the minimum predates
the 1.2 signature redesign or the 2.0 compatibility break, when the signature
still features a deprecated `run` method, or when a version string is
unparseable (`ValueError`). -/
def checkMin (engine : SVer) (s : SigSpec) : Bool :=
  match s.minimum with
  | .unset => true
  | .invalid => false
  | .ver m =>
    if sverLt engine m then false
    else if sverLt m ⟨1, 2, 0⟩ then false
    else if sverLt m ⟨2, 0, 0⟩ then false
    else if s.has_run then false
    else true

/-- `RunSignatures.check_signature_version`, maximum branch: drop when the
engine is strictly newer than the declared maximum or the string is
unparseable. -/
def checkMax (engine : SVer) (s : SigSpec) : Bool :=
  match s.maximum with
  | .unset => true
  | .invalid => false
  | .ver mx => if sverLt mx engine then false else true

/-- `RunSignatures.check_signature_version`: both branches must pass. -/
def check_signature_version (engine : SVer) (s : SigSpec) : Bool :=
  checkMin engine s && checkMax engine s

/-- The signature-gathering loop of `RunSignatures.__init__`: keep every
registered signature that is enabled and version-compatible, and instantiate
it (fresh `matched`/`pid`/`cid`). -/
def loadSigs (engine : SVer) (regs : List SigSpec) : List SigState :=
  (regs.filter (fun s => s.enabled && check_signature_version engine s)).map
    (fun sp => ⟨sp, false, 0, 0⟩)

/-- The init/quickout loop of `RunSignatures.run`, with Python's live-list
iteration semantics: the loop keeps an index `i` into the *current* list,
stops when `i` reaches the current length, and `self.signatures.remove(...)`
deletes the first element with the current signature's name (object identity,
given distinct names).  `steps` is an upper bound on the number of
iterations; `quickoutPass` supplies `sigs.length`, which always suffices
because the index grows each step and the list never grows.  The returned
string list records, in order, the signatures whose `init()` and
`quickout()` hooks were invoked. -/
def quickoutLoop : Nat → List SigState → Nat → List SigState × List String
  | 0, sigs, _ => (sigs, [])
  | Nat.succ steps, sigs, i =>
    match sigs.get? i with
    | none => (sigs, [])
    | some s =>
      let rest :=
        if s.spec.quickout then
          sigs.eraseP (fun x => x.spec.name == s.spec.name)
        else sigs
      let r := quickoutLoop steps rest (i + 1)
      (r.1, s.spec.name :: r.2)

/-- The init/quickout pass over `self.signatures` (lines 352–356). -/
def quickoutPass (sigs : List SigState) : List SigState × List String :=
  quickoutLoop sigs.length sigs 0

/-- The three-filter gate of the call loop in `RunSignatures.run`: a
non-empty filter set must contain the call's process name / API name /
category; an empty filter (falsy in Python) imposes no constraint.  The
source converts the filter lists to sets first, which leaves membership
unchanged. -/
def callPasses (sp : SigSpec) (pname : String) (c : CallRec) : Bool :=
  (sp.filter_processnames.isEmpty || sp.filter_processnames.contains pname) &&
  (sp.filter_apinames.isEmpty || sp.filter_apinames.contains c.api) &&
  (sp.filter_categories.isEmpty || sp.filter_categories.contains c.category)

/-- One `on_process` dispatch of the replay loop: set `sig.pid`, then call
the wrapper. -/
def procStep (fuel : Nat) (p : ProcRec) (e : Engine) (j : Nat) :
    Engine × List Ev :=
  call_signature fuel (setPidAt e j p.pid) j
    ⟨"on_process", none, fun sp => sp.on_process p⟩

/-- One signature's slot of the per-call loop: skip unless the call passes
all three non-empty filters; otherwise set `sig.cid` and dispatch `on_call`
through the wrapper. -/
def callStep (fuel : Nat) (p : ProcRec) (idx : Nat) (c : CallRec)
    (e : Engine) (j : Nat) : Engine × List Ev :=
  match e.sigs.get? j with
  | none => (e, [])
  | some s =>
    if callPasses s.spec p.process_name c then
      call_signature fuel (setCidAt e j idx) j
        ⟨"on_call", some c.api, fun sp => sp.on_call c p⟩
    else (e, [])

/-- The inner `for sig in self.signatures` loop for one call of the trace. -/
def replayOneCall (fuel : Nat) (p : ProcRec) (idx : Nat) (c : CallRec)
    (e : Engine) : Engine × List Ev :=
  runSeq (callStep fuel p idx c) e (List.range e.sigs.length)

/-- The `for idx, call in enumerate(proc.get("calls", []))` loop. -/
def replayCalls (fuel : Nat) (p : ProcRec) :
    Engine → List (Nat × CallRec) → Engine × List Ev
  | e, [] => (e, [])
  | e, ic :: rest =>
    let r := replayOneCall fuel p ic.1 ic.2 e
    let r2 := replayCalls fuel p r.1 rest
    (r2.1, r.2 ++ r2.2)

/-- One process of the trace: yield the process event to every signature,
then each of its calls. -/
def replayProc (fuel : Nat) (e : Engine) (p : ProcRec) : Engine × List Ev :=
  let r := runSeq (procStep fuel p) e (List.range e.sigs.length)
  let r2 := replayCalls fuel p r.1 p.calls.enum
  (r2.1, r.2 ++ r2.2)

/-- The outer `for proc in ...processes` loop of `RunSignatures.run`. -/
def replayTrace (fuel : Nat) : Engine → List ProcRec → Engine × List Ev
  | e, [] => (e, [])
  | e, p :: ps =>
    let r := replayProc fuel e p
    let r2 := replayTrace fuel r.1 ps
    (r2.1, r.2 ++ r2.2)

/-- One `on_complete` dispatch of the completion loop. -/
def completeStep (fuel : Nat) (e : Engine) (j : Nat) : Engine × List Ev :=
  call_signature fuel e j ⟨"on_complete", none, fun sp => sp.on_complete⟩

/-- Stable insertion of `a` into `l` by a numeric key: `a` goes before the
first element whose key is not smaller (so equal keys keep earlier-inserted
elements first). -/
def insertByKey (key : α → Nat) (a : α) : List α → List α
  | [] => [a]
  | b :: l => if key a ≤ key b then a :: b :: l else b :: insertByKey key a l

/-- Stable sort by a numeric key; models Python's stable `list.sort(key=...)`
(any two stable sorts by the same key agree). -/
def sortByKey (key : α → Nat) : List α → List α
  | [] => []
  | a :: l => insertByKey key a (sortByKey key l)

/-- The final collection step: `self.matched.sort(key=lambda key:
key["severity"])` — a stable ascending sort by severity. -/
def sortDets (l : List Det) : List Det :=
  sortByKey (fun d => d.severity) l

/-- A value of the results map ("fat dict").  `behavior` stands for the
`{"processes": [...]}` object under the `"behavior"` key, `dets` for the
final `"signatures"` value, `blob` for any other opaque module output. -/
inductive RVal where
  | behavior (ps : List ProcRec)
  | dets (ds : List Det)
  | blob (n : Nat)
deriving DecidableEq, Repr

/-- The results map: string keys to values, insertion-ordered. -/
def ResMap := List (String × RVal)

/-- Dictionary lookup. -/
def getVal : ResMap → String → Option RVal
  | [], _ => none
  | (k0, v0) :: rest, k => if k0 == k then some v0 else getVal rest k

/-- Dictionary assignment `results[k] = v`: replace in place, else append. -/
def setVal : ResMap → String → RVal → ResMap
  | [], k, v => [(k, v)]
  | (k0, v0) :: rest, k, v =>
    if k0 == k then (k0, v) :: rest else (k0, v0) :: setVal rest k v

/-- `self.results.get("behavior", {}).get("processes", [])`: absence of the
key (or a non-behavior value) means no processes to replay. -/
def getProcs (results : ResMap) : List ProcRec :=
  match getVal results "behavior" with
  | some (.behavior ps) => ps
  | _ => []

/-- The complete outcome of `RunSignatures` over one results map. -/
structure SigRunOut where
  results : ResMap
  engine : Engine
  events : List Ev
  visited : List String

/-- `RunSignatures.__init__` followed by `RunSignatures.run`: load enabled,
version-compatible signatures; run the init/quickout pass; replay the trace;
yield completion events; stable-sort the matched detections by severity and
store them under `"signatures"`. -/
def runSignatures (fuel : Nat) (engine : SVer) (regs : List SigSpec)
    (results : ResMap) : SigRunOut :=
  let loaded := loadSigs engine regs
  let qp := quickoutPass loaded
  let e0 : Engine := ⟨qp.1, []⟩
  let r1 := replayTrace fuel e0 (getProcs results)
  let r2 := runSeq (completeStep fuel) r1.1 (List.range r1.1.sigs.length)
  let dets := sortDets r2.1.order
  ⟨setVal results "signatures" (RVal.dets dets), r2.1, r1.2 ++ r2.2, qp.2⟩

/-- Outcome of an auxiliary module's `start()` call: normal return,
`NotImplementedError`, or any other exception. -/
inductive AOut where
  | ok
  | notImpl
  | err
deriving DecidableEq, Repr

/-- One auxiliary module: whether instantiation succeeds, whether its config
section exists, its `enabled` flag, and its `start()` behavior. -/
structure AuxMod where
  name : String
  instOk : Bool
  cfgPresent : Bool
  enabled : Bool
  startOut : AOut
deriving DecidableEq, Repr

/-- `RunAuxiliary.start`: returns (`self.enabled` of successfully started
modules, visit log of modules whose processing was attempted past
instantiation).  Faithful detail: an instantiation failure executes `return`,
aborting the whole loop — every later module is skipped.  Config-section
absence and `start()` failures only skip the current module. -/
def runAuxStart : List AuxMod → List String × List String
  | [] => ([], [])
  | m :: rest =>
    if m.instOk then
      let r := runAuxStart rest
      if !m.cfgPresent then (r.1, m.name :: r.2)
      else if !m.enabled then (r.1, m.name :: r.2)
      else
        match m.startOut with
        | .ok => (m.name :: r.1, m.name :: r.2)
        | .notImpl => (r.1, m.name :: r.2)
        | .err => (r.1, m.name :: r.2)
    else ([], [])

/-- Outcome of a processing module's `run()` call: returned data (a `Nat`
standing in for the returned object, `0` meaning a Python-falsy value such as
`None`, `{}` or `[]`), or one of the three caught failure kinds. -/
inductive POut where
  | ok (data : Nat)
  | depErr
  | procErr
  | err
deriving DecidableEq, Repr

/-- One processing module with its `order`, `key` and behaviors. -/
structure PMod where
  name : String
  order : Nat
  key : String
  instOk : Bool
  cfgPresent : Bool
  enabled : Bool
  runOut : POut
deriving DecidableEq, Repr

/-- `RunProcessing.process` for one module: every failure kind (instantiation
failure, missing config section, disabled, dependency / processing / other
error) yields `(None, None)`; success yields `(current.key, data)`. -/
def processModule (m : PMod) : Option (String × Nat) :=
  if !m.instOk then none
  else if !m.cfgPresent then none
  else if !m.enabled then none
  else
    match m.runOut with
    | .ok d => some (m.key, d)
    | .depErr => none
    | .procErr => none
    | .err => none

/-- The processing results map: module keys to module data. -/
def PResMap := List (String × Nat)

/-- Dictionary lookup in the processing results map. -/
def getValP : PResMap → String → Option Nat
  | [], _ => none
  | (k0, v0) :: rest, k => if k0 == k then some v0 else getValP rest k

/-- Dictionary assignment in the processing results map. -/
def setValP : PResMap → String → Nat → PResMap
  | [], k, v => [(k, v)]
  | (k0, v0) :: rest, k, v =>
    if k0 == k then (k0, v) :: rest else (k0, v0) :: setValP rest k v

/-- The module loop of `RunProcessing.run`: run each module, and merge
`results[key] = result` only when both `key` and `result` are truthy.
Returns the fat dict and the visit log. -/
def runProcList : PResMap → List PMod → PResMap × List String
  | res, [] => (res, [])
  | res, m :: rest =>
    let res2 :=
      match processModule m with
      | some kd =>
        if kd.1 != "" && kd.2 != 0 then setValP res kd.1 kd.2 else res
      | none => res
    let r := runProcList res2 rest
    (r.1, m.name :: r.2)

/-- `RunProcessing.run`: sort the loaded module list by `order` (stable),
run every module, return the fat dict; an empty module list is a no-op. -/
def runProcessing (mods : List PMod) : PResMap × List String :=
  if mods.isEmpty then ([], [])
  else runProcList [] (sortByKey (fun m => m.order) mods)

/-- Outcome of a reporting module's `run()` call. -/
inductive ROut where
  | ok
  | depErr
  | repErr
  | err
deriving DecidableEq, Repr

/-- One reporting module. -/
structure RMod where
  name : String
  order : Nat
  instOk : Bool
  cfgPresent : Bool
  enabled : Bool
  runOut : ROut
deriving DecidableEq, Repr

/-- `RunReporting.process` for one module: true iff the module's `run` was
executed successfully; every failure kind is caught inside `process`, so the
caller's loop always continues. -/
def processReport (m : RMod) : Bool :=
  if !m.instOk then false
  else if !m.cfgPresent then false
  else if !m.enabled then false
  else
    match m.runOut with
    | .ok => true
    | .depErr => false
    | .repErr => false
    | .err => false

/-- The module loop of `RunReporting.run`: returns (successfully executed
modules, visit log). -/
def runRepLoop : List RMod → List String × List String
  | [] => ([], [])
  | m :: rest =>
    let r := runRepLoop rest
    (if processReport m then m.name :: r.1 else r.1, m.name :: r.2)

/-- `RunReporting.run`: sort by `order` (stable) and run every module. -/
def runReporting (mods : List RMod) : List String × List String :=
  if mods.isEmpty then ([], [])
  else runRepLoop (sortByKey (fun m => m.order) mods)

/-- The process-wide plugin registry `_modules`: group name to list of
registered plugin descriptors, generic in the descriptor type. -/
def Registry (α : Type) := List (String × List α)

/-- `register_plugin(group, name)`: `setdefault` the group's list and append
(duplicates allowed). -/
def register_plugin : Registry α → String → α → Registry α
  | [], g, x => [(g, [x])]
  | (k, l) :: rest, g, x =>
    if k == g then (k, l ++ [x]) :: rest
    else (k, l) :: register_plugin rest g x

/-- Lookup of a group's entry in the registry. -/
def regLookup : Registry α → String → Option (List α)
  | [], _ => none
  | (k, l) :: rest, g => if k == g then some l else regLookup rest g

/-- `list_plugins(group)`: the group's list in stored order; a `defaultdict`
yields `[]` for an unknown group. -/
def list_plugins (r : Registry α) (g : String) : List α :=
  (regLookup r g).getD []

/-- Replace the stored list of a group (models an in-place mutation of the
list object the registry holds). -/
def regSet : Registry α → String → List α → Registry α
  | [], _, _ => []
  | (k, l) :: rest, g, l2 =>
    if k == g then (k, l2) :: rest else (k, l) :: regSet rest g l2

/-- `RunProcessing.run` as seen by the registry: `list_plugins` returns the
registry's own list object, and the in-place `processing_list.sort(...)`
therefore reorders the registry's stored `"processing"` list. -/
def runProcessingReg (r : Registry PMod) :
    Registry PMod × PResMap × List String :=
  let pl := list_plugins r "processing"
  if pl.isEmpty then (r, [], [])
  else
    let sorted := sortByKey (fun m => m.order) pl
    (regSet r "processing" sorted, runProcList [] sorted)

/-- The filter condition as the claim states it: the call must pass each of
the signature's non-empty filter sets; an empty filter imposes no
constraint. -/
def SpecPass (sp : SigSpec) (pname : String) (c : CallRec) : Prop :=
  (sp.filter_processnames ≠ [] → pname ∈ sp.filter_processnames) ∧
  (sp.filter_apinames ≠ [] → c.api ∈ sp.filter_apinames) ∧
  (sp.filter_categories ≠ [] → c.category ∈ sp.filter_categories)

/-- The names of the instantiated signatures, in list order. -/
def namesOf (e : Engine) : List String :=
  e.sigs.map (fun t => t.spec.name)

/-- The loading condition exactly as the claim states it: a signature's
version constraints admit the engine version unless its declared minimum is
strictly greater than the engine version, its declared maximum is strictly
less than the engine version, or a declared version string is
unparseable. -/
def specVersionAdmits (engine : SVer) (s : SigSpec) : Bool :=
  (match s.minimum with
   | .unset => true
   | .invalid => false
   | .ver m => !sverLt engine m) &&
  (match s.maximum with
   | .unset => true
   | .invalid => false
   | .ver mx => !sverLt mx engine)

/-- The extra drop conditions the source applies beyond the claim's: a
declared minimum below 2.0 (pre-redesign signature styles) or a deprecated
`run` method also drop the signature. -/
def legacyOk (s : SigSpec) : Bool :=
  match s.minimum with
  | .ver m => !sverLt m ⟨2, 0, 0⟩ && !s.has_run
  | .unset => true
  | .invalid => true

/-- The key/data pair a processing module contributes to the fat dict:
`some data` exactly when the module ran successfully and both its key and
its returned data are truthy. -/
def pContrib (m : PMod) : Option Nat :=
  match processModule m with
  | some kd => if kd.1 != "" && kd.2 != 0 then some kd.2 else none
  | none => none

/-- The collection invariant of the signature engine: the matched-detections
list contains exactly one entry per matched signature, carrying that
signature's name and severity. -/
def EInv (e : Engine) : Prop :=
  (namesOf e).Nodup ∧
  (∀ d ∈ e.order, ∃ st ∈ e.sigs, st.spec.name = d.name ∧
    st.spec.severity = d.severity ∧ st.matched = true) ∧
  (∀ st ∈ e.sigs, st.matched = true →
    st.spec.name ∈ e.order.map (fun d => d.name)) ∧
  (e.order.map (fun d => d.name)).Nodup

/-- A neutral signature spec used by the concrete scenarios below. -/
def baseSpec : SigSpec :=
  { name := "s", severity := 1, enabled := true, minimum := .unset,
    maximum := .unset, has_run := false, filter_processnames := [],
    filter_apinames := [], filter_categories := [], is_active := true,
    quickout := false, on_process := fun _ => .ok false,
    on_call := fun _ _ => .ok false, on_signature := fun _ => .ok false,
    on_complete := .ok false }

/-- Quickout scenario, signature A: `quickout()` returns true. -/
def qSigA : SigState := ⟨{ baseSpec with name := "A", quickout := true }, false, 0, 0⟩

/-- Quickout scenario, signature B: `quickout()` returns false. -/
def qSigB : SigState := ⟨{ baseSpec with name := "B" }, false, 0, 0⟩

/-- A signature declaring `minimum = "3.0"`. -/
def sigMin30 : SigSpec := { baseSpec with minimum := .ver ⟨3, 0, 0⟩ }

/-- A signature declaring `maximum = "2.0"`. -/
def sigMax20 : SigSpec := { baseSpec with maximum := .ver ⟨2, 0, 0⟩ }

/-- A signature declaring `minimum = "1.5"`: its version constraints admit
engine 2.9, yet the source drops it as a pre-2.0-style signature. -/
def sigMin15 : SigSpec := { baseSpec with minimum := .ver ⟨1, 5, 0⟩ }

/-- Auxiliary module whose instantiation fails. -/
def auxA : AuxMod := ⟨"a", false, true, true, .ok⟩

/-- Auxiliary module that would start fine. -/
def auxB : AuxMod := ⟨"b", true, true, true, .ok⟩

/-- Processing module registered first but with the higher order. -/
def pmodB : PMod := ⟨"b", 2, "kb", true, true, true, .ok 1⟩

/-- Processing module registered second but with the lower order. -/
def pmodA : PMod := ⟨"a", 1, "ka", true, true, true, .ok 1⟩

/-- A registry holding the processing plugins in registration order
B before A. -/
def regBA : Registry PMod :=
  register_plugin (register_plugin [] "processing" pmodB) "processing" pmodA

/-- C1 scenario: severity-5 signature whose `on_process` always matches. -/
def wSig5 : SigSpec :=
  { baseSpec with
    name := "W5"
    severity := 5
    on_process := fun _ => .ok true }

/-- C1 scenario: severity-1 signature whose `on_process` always matches. -/
def wSig1 : SigSpec :=
  { baseSpec with
    name := "W1"
    severity := 1
    on_process := fun _ => .ok true }

/-- C1 scenario: severity-3 signature whose `on_process` always matches. -/
def wSig3 : SigSpec :=
  { baseSpec with
    name := "W3"
    severity := 3
    on_process := fun _ => .ok true }

/-- C1 scenario: registered signatures matching in order W5, W1, W3. -/
def wRegs : List SigSpec := [wSig5, wSig1, wSig3]

/-- C1 scenario: a results map with one traced process and no calls. -/
def wResults : ResMap := [("behavior", RVal.behavior [⟨100, "malware.exe", []⟩])]

/-- C3/C10 scenario: signature A, whose `on_call` returns a match. -/
def c3ASt : SigState :=
  ⟨{ baseSpec with name := "A", on_call := fun _ _ => .ok true }, false, 0, 0⟩

/-- C3/C10 scenario: signature B, whose `on_signature` returns a match. -/
def c3BSt : SigState :=
  ⟨{ baseSpec with name := "B", on_signature := fun _ => .ok true },
    false, 0, 0⟩

/-- C3/C10 scenario: the engine holding A and B. -/
def c3Eng : Engine := ⟨[c3ASt, c3BSt], []⟩

/-- C3/C10 scenario: the `on_call` dispatch selector. -/
def c3H : HSel :=
  ⟨"on_call", none, fun sp => sp.on_call ⟨"x", "y"⟩ ⟨1, "p", []⟩⟩

/-- C6 scenario: a signature whose `on_call` handler raises. -/
def c6St : SigState :=
  ⟨{ baseSpec with name := "E", on_call := fun _ _ => .error () },
    false, 0, 0⟩

/-- C6 scenario: the engine holding only the raising signature. -/
def c6Eng : Engine := ⟨[c6St], []⟩

/-- C6 scenario: the `on_call` dispatch selector. -/
def c6H : HSel :=
  ⟨"on_call", none, fun sp => sp.on_call ⟨"x", "y"⟩ ⟨1, "p", []⟩⟩

/-- C7 scenario: a signature filtering on API name CreateFileW. -/
def c7F : SigSpec :=
  { baseSpec with name := "F", filter_apinames := ["CreateFileW"] }

/-- C7 scenario: a signature with all three filters empty. -/
def c7G : SigSpec := { baseSpec with name := "G" }

/-- C7 scenario: the engine holding the two filter test signatures. -/
def c7Eng : Engine := ⟨[⟨c7F, false, 0, 0⟩, ⟨c7G, false, 0, 0⟩], []⟩

/-- C7 scenario: a ReadFile call. -/
def c7Call : CallRec := ⟨"ReadFile", "filesystem"⟩

/-- C7 scenario: the traced process issuing the ReadFile call. -/
def c7Proc : ProcRec := ⟨100, "malware.exe", [c7Call]⟩

/-- C9 scenario: a signature whose `is_active()` is false but whose
`on_call` would match. -/
def c9St : SigState :=
  ⟨{ baseSpec with
     name := "I"
     is_active := false
     on_call := fun _ _ => .ok true }, false, 0, 0⟩

/-- C9 scenario: the engine holding only the inactive signature. -/
def c9Eng : Engine := ⟨[c9St], []⟩

/-- C9 scenario: the `on_call` dispatch selector. -/
def c9H : HSel :=
  ⟨"on_call", none, fun sp => sp.on_call ⟨"x", "y"⟩ ⟨1, "p", []⟩⟩

/-! ### Basic observations and state-manipulation lemmas -/

/-- The immutable spec parts of an engine's signature list. -/
def specsOf (e : Engine) : List SigSpec :=
  e.sigs.map (fun s => s.spec)

/-- The `matched` flag of signature `i` (false when out of range). -/
def matchedAt (e : Engine) (i : Nat) : Bool :=
  ((e.sigs.get? i).map (fun s => s.matched)).getD false

theorem modifySig_map (l : List SigState) (i : Nat) (f : SigState → SigState)
    (g : SigState → β) (hg : ∀ s, g (f s) = g s) :
    (modifySig l i f).map g = l.map g := by
  unfold modifySig
  cases hl : l.get? i with
  | none => rfl
  | some s =>
    have hi : i < l.length := List.get?_eq_some.mp hl |>.1
    rw [List.map_set]
    have : g (f s) = g s := hg s
    rw [this]
    have hs : (l.map g).get? i = some (g s) := by
      rw [List.get?_map, hl]; rfl
    calc (l.map g).set i (g s) = (l.map g).set i (g s) := rfl
    _ = l.map g := by
      apply List.ext_get?
      intro j
      by_cases hj : j = i
      · subst hj
        rw [List.get?_set_eq_of_lt _ (by simpa using hi), hs]
      · rw [List.get?_set_ne _ _ (fun hc => hj hc.symm)]

theorem modifySig_length (l : List SigState) (i : Nat)
    (f : SigState → SigState) : (modifySig l i f).length = l.length := by
  unfold modifySig
  cases l.get? i with
  | none => rfl
  | some s => exact List.length_set l _ _

theorem modifySig_get_self (l : List SigState) (i : Nat)
    (f : SigState → SigState) (s : SigState) (h : l.get? i = some s) :
    (modifySig l i f).get? i = some (f s) := by
  unfold modifySig
  rw [h]
  exact List.get?_set_eq_of_lt _ (List.get?_eq_some.mp h |>.1)

theorem modifySig_get_ne (l : List SigState) (i j : Nat)
    (f : SigState → SigState) (h : j ≠ i) :
    (modifySig l i f).get? j = l.get? j := by
  unfold modifySig
  cases l.get? i with
  | none => rfl
  | some s => exact List.get?_set_ne _ _ (fun hc => h hc.symm)

theorem specsOf_markMatchedAt (e : Engine) (i : Nat) :
    specsOf (markMatchedAt e i) = specsOf e :=
  modifySig_map _ _ _ _ (fun _ => rfl)

theorem specsOf_setPidAt (e : Engine) (i p : Nat) :
    specsOf (setPidAt e i p) = specsOf e :=
  modifySig_map _ _ _ _ (fun _ => rfl)

theorem specsOf_setCidAt (e : Engine) (i c : Nat) :
    specsOf (setCidAt e i c) = specsOf e :=
  modifySig_map _ _ _ _ (fun _ => rfl)

theorem specsOf_recordMatch (e : Engine) (sp : SigSpec) (was : Bool) :
    specsOf (recordMatch e sp was) = specsOf e := by
  unfold recordMatch
  split <;> rfl

theorem sigs_recordMatch (e : Engine) (sp : SigSpec) (was : Bool) :
    (recordMatch e sp was).sigs = e.sigs := by
  unfold recordMatch
  split <;> rfl

theorem length_specsOf (e : Engine) : (specsOf e).length = e.sigs.length :=
  List.length_map _ _

theorem specAt_of_specsOf {e e2 : Engine} (hs : specsOf e2 = specsOf e)
    (i : Nat) : (e2.sigs.get? i).map (fun s => s.spec) =
      (e.sigs.get? i).map (fun s => s.spec) := by
  have h1 : (specsOf e2).get? i = (specsOf e).get? i := by rw [hs]
  simpa [specsOf, List.get?_map] using h1

theorem matchedAt_markMatchedAt_self (e : Engine) (i : Nat) (s : SigState)
    (h : e.sigs.get? i = some s) : matchedAt (markMatchedAt e i) i = true := by
  unfold matchedAt markMatchedAt
  rw [modifySig_get_self _ _ _ _ h]
  rfl

theorem matchedAt_markMatchedAt_mono (e : Engine) (i k : Nat)
    (h : matchedAt e k = true) : matchedAt (markMatchedAt e i) k = true := by
  unfold matchedAt markMatchedAt
  by_cases hk : k = i
  · subst hk
    unfold matchedAt at h
    cases hl : e.sigs.get? k with
    | none => rw [hl] at h; simp at h
    | some s => rw [modifySig_get_self _ _ _ _ hl]; rfl
  · rw [modifySig_get_ne _ _ _ _ hk]
    exact h

theorem matchedAt_modify_same (e : Engine) (i k : Nat)
    (f : SigState → SigState) (hf : ∀ s, (f s).matched = s.matched) :
    matchedAt ⟨modifySig e.sigs i f, e.order⟩ k = matchedAt e k := by
  unfold matchedAt
  by_cases hk : k = i
  · subst hk
    cases hl : e.sigs.get? k with
    | none =>
      have h2 : modifySig e.sigs k f = e.sigs := by
        unfold modifySig
        rw [hl]
      show (Option.map _ ((modifySig e.sigs k f).get? k)).getD false = _
      rw [h2, hl]
    | some s =>
      show (Option.map _ ((modifySig e.sigs k f).get? k)).getD false = _
      rw [modifySig_get_self _ _ _ _ hl]
      exact hf s
  · show (Option.map _ ((modifySig e.sigs i f).get? k)).getD false = _
    rw [modifySig_get_ne _ _ _ _ hk]

theorem matchedAt_setPidAt (e : Engine) (i p k : Nat) :
    matchedAt (setPidAt e i p) k = matchedAt e k :=
  matchedAt_modify_same e i k _ (fun _ => rfl)

theorem matchedAt_setCidAt (e : Engine) (i c k : Nat) :
    matchedAt (setCidAt e i c) k = matchedAt e k :=
  matchedAt_modify_same e i k _ (fun _ => rfl)

theorem matchedAt_recordMatch (e : Engine) (sp : SigSpec) (was : Bool)
    (k : Nat) : matchedAt (recordMatch e sp was) k = matchedAt e k := by
  unfold matchedAt
  rw [sigs_recordMatch]

/-! ### Generic lemmas about dispatch loops (`runSeq`) -/

theorem runSeq_inv (step : Engine → Nat → Engine × List Ev)
    (P : Engine → Prop) (hstep : ∀ e j, P e → P (step e j).1) :
    ∀ (js : List Nat) (e : Engine), P e → P (runSeq step e js).1 := by
  intro js
  induction js with
  | nil => intro e he; exact he
  | cons j js ih =>
    intro e he
    exact ih _ (hstep e j he)

theorem runSeq_events_decomp (step : Engine → Nat → Engine × List Ev)
    (P : Engine → Prop) (hstep : ∀ e j, P e → P (step e j).1) :
    ∀ (js : List Nat) (e : Engine), P e → ∀ ev, ev ∈ (runSeq step e js).2 →
      ∃ j e2, j ∈ js ∧ P e2 ∧ ev ∈ (step e2 j).2 := by
  intro js
  induction js with
  | nil => intro e _ ev hev; simp [runSeq] at hev
  | cons j js ih =>
    intro e he ev hev
    simp only [runSeq, List.mem_append] at hev
    cases hev with
    | inl h1 => exact ⟨j, e, List.mem_cons_self _ _, he, h1⟩
    | inr h2 =>
      obtain ⟨j2, e2, hj2, hp2, hm2⟩ := ih _ (hstep e j he) ev h2
      exact ⟨j2, e2, List.mem_cons_of_mem _ hj2, hp2, hm2⟩

theorem runSeq_mem_of_step (step : Engine → Nat → Engine × List Ev)
    (P : Engine → Prop) (hstep : ∀ e k, P e → P (step e k).1)
    (j : Nat) (ev : Ev) (hev : ∀ e2, P e2 → ev ∈ (step e2 j).2) :
    ∀ (js : List Nat) (e : Engine), P e → j ∈ js →
      ev ∈ (runSeq step e js).2 := by
  intro js
  induction js with
  | nil => intro e _ hj; cases hj
  | cons j0 js ih =>
    intro e he hj
    simp only [runSeq, List.mem_append]
    rcases List.mem_cons.mp hj with hj0 | hjs
    · subst hj0
      exact Or.inl (hev e he)
    · exact Or.inr (ih _ (hstep e j0 he) hjs)

theorem runSeq_sets (step : Engine → Nat → Engine × List Ev)
    (P : Engine → Prop) (hstep : ∀ e k, P e → P (step e k).1)
    (hmono : ∀ e k j2, matchedAt e k = true → matchedAt (step e j2).1 k = true)
    (j : Nat) (hset : ∀ e2, P e2 → matchedAt (step e2 j).1 j = true) :
    ∀ (js : List Nat) (e : Engine), P e → j ∈ js →
      matchedAt (runSeq step e js).1 j = true := by
  intro js
  induction js with
  | nil => intro e _ hj; cases hj
  | cons j0 js ih =>
    intro e he hj
    rcases List.mem_cons.mp hj with hj0 | hjs
    · subst hj0
      show matchedAt (runSeq step (step e j).1 js).1 j = true
      exact runSeq_inv step (fun e2 => matchedAt e2 j = true)
        (fun e2 k2 h2 => hmono e2 j k2 h2) js _ (hset e he)
    · exact ih _ (hstep e j0 he) hjs

/-! ### Branch equations for the match wrapper -/

theorem cs_none (fuel : Nat) (e : Engine) (i : Nat) (h : HSel)
    (hg : e.sigs.get? i = none) :
    call_signature (fuel + 1) e i h = (e, []) := by
  have hg2 : e.sigs[i]? = none := by rw [← List.get?_eq_getElem?]; exact hg
  simp [call_signature, hg2]

theorem cs_inactive (fuel : Nat) (e : Engine) (i : Nat) (h : HSel)
    (s : SigState) (hg : e.sigs.get? i = some s)
    (hact : s.spec.is_active = false) :
    call_signature (fuel + 1) e i h =
      (e, [⟨.dispatched, s.spec.name, h.tag, h.payload⟩]) := by
  have hg2 : e.sigs[i]? = some s := by rw [← List.get?_eq_getElem?]; exact hg
  simp [call_signature, hg2, hact]

theorem cs_error (fuel : Nat) (e : Engine) (i : Nat) (h : HSel)
    (s : SigState) (u : Unit) (hg : e.sigs.get? i = some s)
    (hact : s.spec.is_active = true) (hf : h.fn s.spec = .error u) :
    call_signature (fuel + 1) e i h =
      (e, [⟨.dispatched, s.spec.name, h.tag, h.payload⟩,
           ⟨.invoked, s.spec.name, h.tag, h.payload⟩]) := by
  have hg2 : e.sigs[i]? = some s := by rw [← List.get?_eq_getElem?]; exact hg
  simp [call_signature, hg2, hact, hf]

theorem cs_okfalse (fuel : Nat) (e : Engine) (i : Nat) (h : HSel)
    (s : SigState) (hg : e.sigs.get? i = some s)
    (hact : s.spec.is_active = true) (hf : h.fn s.spec = .ok false) :
    call_signature (fuel + 1) e i h =
      (e, [⟨.dispatched, s.spec.name, h.tag, h.payload⟩,
           ⟨.invoked, s.spec.name, h.tag, h.payload⟩]) := by
  have hg2 : e.sigs[i]? = some s := by rw [← List.get?_eq_getElem?]; exact hg
  simp [call_signature, hg2, hact, hf]

theorem cs_oktrue (fuel : Nat) (e : Engine) (i : Nat) (h : HSel)
    (s : SigState) (hg : e.sigs.get? i = some s)
    (hact : s.spec.is_active = true) (hf : h.fn s.spec = .ok true) :
    call_signature (fuel + 1) e i h =
      (let e2 := recordMatch (markMatchedAt e i) s.spec s.matched
       let r := runSeq
         (fun e3 j => call_signature fuel e3 j (onSigSel s.spec.name))
         e2 (List.range e2.sigs.length)
       (r.1, ⟨.dispatched, s.spec.name, h.tag, h.payload⟩ ::
             ⟨.invoked, s.spec.name, h.tag, h.payload⟩ :: r.2)) := by
  have hg2 : e.sigs[i]? = some s := by rw [← List.get?_eq_getElem?]; exact hg
  simp [call_signature, hg2, hact, hf]

/-! ### Invariants of the match wrapper -/

theorem cs_specs (fuel : Nat) :
    ∀ (e : Engine) (i : Nat) (h : HSel),
      specsOf (call_signature fuel e i h).1 = specsOf e := by
  induction fuel with
  | zero => intro e i h; rfl
  | succ fuel ih =>
    intro e i h
    cases hg : e.sigs.get? i with
    | none => rw [cs_none fuel e i h hg]
    | some s =>
      cases hact : s.spec.is_active with
      | false => rw [cs_inactive fuel e i h s hg hact]
      | true =>
        cases hf : h.fn s.spec with
        | error u => rw [cs_error fuel e i h s u hg hact hf]
        | ok b =>
          cases b with
          | false => rw [cs_okfalse fuel e i h s hg hact hf]
          | true =>
            rw [cs_oktrue fuel e i h s hg hact hf]
            have h2 : specsOf (recordMatch (markMatchedAt e i) s.spec
                s.matched) = specsOf e := by
              rw [specsOf_recordMatch, specsOf_markMatchedAt]
            exact (runSeq_inv _ (fun e3 => specsOf e3 = specsOf e)
              (fun e3 j h3 => (ih e3 j _).trans h3) _ _ h2)

theorem cs_mono (fuel : Nat) :
    ∀ (e : Engine) (i : Nat) (h : HSel) (k : Nat),
      matchedAt e k = true → matchedAt (call_signature fuel e i h).1 k =
        true := by
  induction fuel with
  | zero => intro e i h k hk; exact hk
  | succ fuel ih =>
    intro e i h k hk
    cases hg : e.sigs.get? i with
    | none => rw [cs_none fuel e i h hg]; exact hk
    | some s =>
      cases hact : s.spec.is_active with
      | false => rw [cs_inactive fuel e i h s hg hact]; exact hk
      | true =>
        cases hf : h.fn s.spec with
        | error u => rw [cs_error fuel e i h s u hg hact hf]; exact hk
        | ok b =>
          cases b with
          | false => rw [cs_okfalse fuel e i h s hg hact hf]; exact hk
          | true =>
            rw [cs_oktrue fuel e i h s hg hact hf]
            have h2 : matchedAt (recordMatch (markMatchedAt e i) s.spec
                s.matched) k = true := by
              rw [matchedAt_recordMatch]
              exact matchedAt_markMatchedAt_mono e i k hk
            exact runSeq_inv _ (fun e3 => matchedAt e3 k = true)
              (fun e3 j h3 => ih e3 j _ k h3) _ _ h2

theorem cs_matched_set (fuel : Nat) (e : Engine) (i : Nat) (h : HSel)
    (s : SigState) (hg : e.sigs.get? i = some s)
    (hact : s.spec.is_active = true) (hf : h.fn s.spec = .ok true)
    (hfuel : 1 ≤ fuel) :
    matchedAt (call_signature fuel e i h).1 i = true := by
  obtain ⟨f, rfl⟩ : ∃ f, fuel = f + 1 :=
    ⟨fuel - 1, (Nat.succ_pred_eq_of_pos hfuel).symm⟩
  rw [cs_oktrue f e i h s hg hact hf]
  have h2 : matchedAt (recordMatch (markMatchedAt e i) s.spec s.matched)
      i = true := by
    rw [matchedAt_recordMatch]
    exact matchedAt_markMatchedAt_self e i s hg
  exact runSeq_inv _ (fun e3 => matchedAt e3 i = true)
    (fun e3 j h3 => cs_mono f e3 j _ i h3) _ _ h2

theorem cs_dispatch_mem (fuel : Nat) (e : Engine) (i : Nat) (h : HSel)
    (s : SigState) (hg : e.sigs.get? i = some s) (hfuel : 1 ≤ fuel) :
    (⟨.dispatched, s.spec.name, h.tag, h.payload⟩ : Ev) ∈
      (call_signature fuel e i h).2 := by
  obtain ⟨f, rfl⟩ : ∃ f, fuel = f + 1 :=
    ⟨fuel - 1, (Nat.succ_pred_eq_of_pos hfuel).symm⟩
  cases hact : s.spec.is_active with
  | false =>
    rw [cs_inactive f e i h s hg hact]
    exact List.mem_singleton.mpr rfl
  | true =>
    cases hf : h.fn s.spec with
    | error u =>
      rw [cs_error f e i h s u hg hact hf]
      exact List.mem_cons_self _ _
    | ok b =>
      cases b with
      | false =>
        rw [cs_okfalse f e i h s hg hact hf]
        exact List.mem_cons_self _ _
      | true =>
        rw [cs_oktrue f e i h s hg hact hf]
        exact List.mem_cons_self _ _

theorem cs_events_shape (fuel : Nat) :
    ∀ (e : Engine) (i : Nat) (h : HSel) (ev : Ev),
      ev ∈ (call_signature fuel e i h).2 →
      (∃ s, e.sigs.get? i = some s ∧ ev.sig = s.spec.name ∧
        ev.handler = h.tag ∧ ev.payload = h.payload) ∨
      ev.handler = "on_signature" := by
  induction fuel with
  | zero => intro e i h ev hev; simp [call_signature] at hev
  | succ fuel ih =>
    intro e i h ev hev
    cases hg : e.sigs.get? i with
    | none => rw [cs_none fuel e i h hg] at hev; simp at hev
    | some s =>
      cases hact : s.spec.is_active with
      | false =>
        rw [cs_inactive fuel e i h s hg hact] at hev
        rcases List.mem_singleton.mp hev with rfl
        exact Or.inl ⟨s, rfl, rfl, rfl, rfl⟩
      | true =>
        cases hf : h.fn s.spec with
        | error u =>
          rw [cs_error fuel e i h s u hg hact hf] at hev
          rcases List.mem_cons.mp hev with rfl | hev2
          · exact Or.inl ⟨s, rfl, rfl, rfl, rfl⟩
          rcases List.mem_singleton.mp hev2 with rfl
          exact Or.inl ⟨s, rfl, rfl, rfl, rfl⟩
        | ok b =>
          cases b with
          | false =>
            rw [cs_okfalse fuel e i h s hg hact hf] at hev
            rcases List.mem_cons.mp hev with rfl | hev2
            · exact Or.inl ⟨s, rfl, rfl, rfl, rfl⟩
            rcases List.mem_singleton.mp hev2 with rfl
            exact Or.inl ⟨s, rfl, rfl, rfl, rfl⟩
          | true =>
            rw [cs_oktrue fuel e i h s hg hact hf] at hev
            rcases List.mem_cons.mp hev with rfl | hev2
            · exact Or.inl ⟨s, rfl, rfl, rfl, rfl⟩
            rcases List.mem_cons.mp hev2 with rfl | hev3
            · exact Or.inl ⟨s, rfl, rfl, rfl, rfl⟩
            obtain ⟨j, e2, _, _, hm⟩ := runSeq_events_decomp _
              (fun _ => True) (fun _ _ _ => trivial) _ _ trivial ev hev3
            rcases ih e2 j (onSigSel s.spec.name) ev hm with ⟨s2, _, _, htag, _⟩ | hr
            · exact Or.inr htag
            · exact Or.inr hr

theorem get_spec_of_specsOf {e e3 : Engine} (hs : specsOf e3 = specsOf e)
    {j : Nat} {sj : SigState} (hj : e.sigs.get? j = some sj) :
    ∃ sj3, e3.sigs.get? j = some sj3 ∧ sj3.spec = sj.spec := by
  have h1 := specAt_of_specsOf hs j
  rw [hj] at h1
  cases hg3 : e3.sigs.get? j with
  | none => rw [hg3] at h1; simp at h1
  | some s3 =>
    rw [hg3] at h1
    exact ⟨s3, rfl, by simpa using h1⟩

theorem length_of_specsOf {e e3 : Engine} (hs : specsOf e3 = specsOf e) :
    e3.sigs.length = e.sigs.length := by
  have h1 : (specsOf e3).length = (specsOf e).length := by rw [hs]
  simpa [specsOf] using h1

/-- The length of the signature list after the matched-marking step. -/
theorem cascade_base_specs (e : Engine) (i : Nat) (s : SigState) :
    specsOf (recordMatch (markMatchedAt e i) s.spec s.matched) = specsOf e := by
  rw [specsOf_recordMatch, specsOf_markMatchedAt]

/-- When an active signature's handler returns truthy, every signature of the
active set receives an `on_signature` dispatch carrying the just-matched
signature's name, inside the same `call_signature` invocation. -/
theorem cs_cascade_dispatch (fuel : Nat) (e : Engine) (i : Nat) (h : HSel)
    (s : SigState) (hg : e.sigs.get? i = some s)
    (hact : s.spec.is_active = true) (hret : h.fn s.spec = .ok true)
    (hfuel : 2 ≤ fuel) (j : Nat) (sj : SigState)
    (hj : e.sigs.get? j = some sj) :
    (⟨.dispatched, sj.spec.name, "on_signature", some s.spec.name⟩ : Ev) ∈
      (call_signature fuel e i h).2 := by
  obtain ⟨f, rfl⟩ : ∃ f, fuel = f + 1 + 1 := by
    refine ⟨fuel - 2, ?_⟩
    omega
  rw [cs_oktrue (f + 1) e i h s hg hact hret]
  apply List.mem_cons_of_mem
  apply List.mem_cons_of_mem
  have hbase := cascade_base_specs e i s
  have hjlt : j < e.sigs.length := (List.get?_eq_some.mp hj).1
  have hjmem : j ∈ List.range
      (recordMatch (markMatchedAt e i) s.spec s.matched).sigs.length := by
    rw [List.mem_range, length_of_specsOf hbase]
    exact hjlt
  refine runSeq_mem_of_step _ (fun e3 => specsOf e3 = specsOf e)
    (fun e3 k h3 => (cs_specs (f + 1) e3 k _).trans h3) j _ ?_ _ _ hbase hjmem
  intro e3 h3
  obtain ⟨sj3, hg3, hsp3⟩ := get_spec_of_specsOf h3 hj
  have := cs_dispatch_mem (f + 1) e3 j (onSigSel s.spec.name) sj3 hg3
    (Nat.le_add_left 1 f)
  rw [hsp3] at this
  exact this

/-- When an active signature's handler returns truthy, every active signature
whose `on_signature` handler itself returns truthy ends the same wrapper
invocation with `matched = true` (the cascade goes through the same
wrapper). -/
theorem cs_cascade_matched (fuel : Nat) (e : Engine) (i : Nat) (h : HSel)
    (s : SigState) (hg : e.sigs.get? i = some s)
    (hact : s.spec.is_active = true) (hret : h.fn s.spec = .ok true)
    (hfuel : 2 ≤ fuel) (j : Nat) (sj : SigState)
    (hj : e.sigs.get? j = some sj) (hactj : sj.spec.is_active = true)
    (hretj : sj.spec.on_signature s.spec.name = .ok true) :
    matchedAt (call_signature fuel e i h).1 j = true := by
  obtain ⟨f, rfl⟩ : ∃ f, fuel = f + 1 + 1 := by
    refine ⟨fuel - 2, ?_⟩
    omega
  rw [cs_oktrue (f + 1) e i h s hg hact hret]
  have hbase := cascade_base_specs e i s
  have hjlt : j < e.sigs.length := (List.get?_eq_some.mp hj).1
  have hjmem : j ∈ List.range
      (recordMatch (markMatchedAt e i) s.spec s.matched).sigs.length := by
    rw [List.mem_range, length_of_specsOf hbase]
    exact hjlt
  refine runSeq_sets _ (fun e3 => specsOf e3 = specsOf e)
    (fun e3 k h3 => (cs_specs (f + 1) e3 k _).trans h3)
    (fun e3 k j2 h3 => cs_mono (f + 1) e3 j2 _ k h3) j ?_ _ _ hbase hjmem
  intro e3 h3
  obtain ⟨sj3, hg3, hsp3⟩ := get_spec_of_specsOf h3 hj
  refine cs_matched_set (f + 1) e3 j (onSigSel s.spec.name) sj3 hg3 ?_ ?_
    (Nat.le_add_left 1 f)
  · rw [hsp3]; exact hactj
  · show sj3.spec.on_signature s.spec.name = .ok true
    rw [hsp3]; exact hretj

/-- Claim C3: when an active signature's handler (`on_call`, `on_process`,
`on_complete` or `on_signature` — the wrapper is uniform) returns a truthy
result, that signature's `matched` flag becomes true and every signature of
the active set receives an `on_signature` notification with the just-matched
signature as payload, inside the very same `call_signature` dispatch (hence
before the replay loop proceeds to the next call of the trace); each such
notification goes through the same wrapper, so an active signature whose
`on_signature` handler returns truthy is itself matched by the cascade. -/
theorem claim_C3_match_propagation (fuel : Nat) (e : Engine) (i : Nat)
    (h : HSel) (s : SigState) (hg : e.sigs.get? i = some s)
    (hact : s.spec.is_active = true) (hret : h.fn s.spec = .ok true)
    (hfuel : 2 ≤ fuel) :
    matchedAt (call_signature fuel e i h).1 i = true ∧
    (∀ j sj, e.sigs.get? j = some sj →
      (⟨.dispatched, sj.spec.name, "on_signature", some s.spec.name⟩ : Ev) ∈
        (call_signature fuel e i h).2) ∧
    (∀ j sj, e.sigs.get? j = some sj → sj.spec.is_active = true →
      sj.spec.on_signature s.spec.name = .ok true →
      matchedAt (call_signature fuel e i h).1 j = true) := by
  refine ⟨cs_matched_set fuel e i h s hg hact hret (by omega), ?_, ?_⟩
  · intro j sj hj
    exact cs_cascade_dispatch fuel e i h s hg hact hret hfuel j sj hj
  · intro j sj hj hactj hretj
    exact cs_cascade_matched fuel e i h s hg hact hret hfuel j sj hj
      hactj hretj

/-- Claim C10: the `on_signature` cascade triggered by a match is dispatched
to every signature of the active set including the just-matched signature
itself, which receives a notification carrying its own name as payload. -/
theorem claim_C10_cascade_includes_self (fuel : Nat) (e : Engine) (i : Nat)
    (h : HSel) (s : SigState) (hg : e.sigs.get? i = some s)
    (hact : s.spec.is_active = true) (hret : h.fn s.spec = .ok true)
    (hfuel : 2 ≤ fuel) :
    (⟨.dispatched, s.spec.name, "on_signature", some s.spec.name⟩ : Ev) ∈
      (call_signature fuel e i h).2 :=
  cs_cascade_dispatch fuel e i h s hg hact hret hfuel i s hg

/-- Claim C9: when the signature's `is_active()` predicate is false, the
wrapper does not invoke the handler at all — the dispatch produces only the
`dispatched` ghost event, never an `invoked` one — the engine state (hence
the `matched` flag and the matched-detections list) is unchanged, and no
`on_signature` cascade is emitted. -/
theorem claim_C9_inactive_skips_handler (fuel : Nat) (e : Engine) (i : Nat)
    (h : HSel) (s : SigState) (hg : e.sigs.get? i = some s)
    (hact : s.spec.is_active = false) (hfuel : 1 ≤ fuel) :
    call_signature fuel e i h =
      (e, [⟨.dispatched, s.spec.name, h.tag, h.payload⟩]) ∧
    (∀ ev ∈ (call_signature fuel e i h).2, ev.kind = .dispatched) ∧
    matchedAt (call_signature fuel e i h).1 i = matchedAt e i := by
  obtain ⟨f, rfl⟩ : ∃ f, fuel = f + 1 :=
    ⟨fuel - 1, (Nat.succ_pred_eq_of_pos hfuel).symm⟩
  have heq := cs_inactive f e i h s hg hact
  refine ⟨heq, ?_, by rw [heq]⟩
  rw [heq]
  intro ev hev
  rcases List.mem_singleton.mp hev with rfl
  rfl

/-- Claim C6: an exception raised by a handler is caught at the wrapper
boundary: the dispatch returns the engine unchanged (no `matched` flag set,
no detection recorded), the only events are this signature's own dispatch
and invocation — no `on_signature` cascade — and the surrounding dispatch
loop continues with the remaining signatures exactly as it would have,
so all other signatures and all subsequent trace events are still
evaluated. -/
theorem claim_C6_handler_exception_contained (fuel : Nat) (e : Engine)
    (i : Nat) (h : HSel) (s : SigState) (u : Unit)
    (hg : e.sigs.get? i = some s) (hact : s.spec.is_active = true)
    (herr : h.fn s.spec = .error u) (hfuel : 1 ≤ fuel) :
    call_signature fuel e i h =
      (e, [⟨.dispatched, s.spec.name, h.tag, h.payload⟩,
           ⟨.invoked, s.spec.name, h.tag, h.payload⟩]) ∧
    matchedAt (call_signature fuel e i h).1 i = matchedAt e i ∧
    (∀ ev ∈ (call_signature fuel e i h).2, ev.handler = h.tag) ∧
    (∀ js, runSeq (fun e2 j => call_signature fuel e2 j h) e (i :: js) =
      (let r := runSeq (fun e2 j => call_signature fuel e2 j h) e js
       (r.1, [⟨.dispatched, s.spec.name, h.tag, h.payload⟩,
              ⟨.invoked, s.spec.name, h.tag, h.payload⟩] ++ r.2))) := by
  obtain ⟨f, rfl⟩ : ∃ f, fuel = f + 1 :=
    ⟨fuel - 1, (Nat.succ_pred_eq_of_pos hfuel).symm⟩
  have heq := cs_error f e i h s u hg hact herr
  refine ⟨heq, by rw [heq], ?_, ?_⟩
  · rw [heq]
    intro ev hev
    rcases List.mem_cons.mp hev with rfl | hev2
    · rfl
    rcases List.mem_singleton.mp hev2 with rfl
    rfl
  · intro js
    show (let r := call_signature (f + 1) e i h
          let r2 := runSeq _ r.1 js
          (r2.1, r.2 ++ r2.2)) = _
    rw [heq]

/-! ### The per-call filter gate (claim C7) -/

theorem callPasses_iff (sp : SigSpec) (pname : String) (c : CallRec) :
    callPasses sp pname c = true ↔ SpecPass sp pname c := by
  unfold callPasses SpecPass
  simp only [Bool.and_eq_true, Bool.or_eq_true, List.isEmpty_iff]
  constructor
  · rintro ⟨⟨h1, h2⟩, h3⟩
    exact ⟨fun hn => List.elem_iff.mp (h1.resolve_left hn),
      fun hn => List.elem_iff.mp (h2.resolve_left hn),
      fun hn => List.elem_iff.mp (h3.resolve_left hn)⟩
  · rintro ⟨h1, h2, h3⟩
    replace h1 := fun hn => List.elem_iff.mpr (h1 hn)
    replace h2 := fun hn => List.elem_iff.mpr (h2 hn)
    replace h3 := fun hn => List.elem_iff.mpr (h3 hn)
    by_cases e1 : sp.filter_processnames = []
    · by_cases e2 : sp.filter_apinames = []
      · by_cases e3 : sp.filter_categories = []
        · exact ⟨⟨Or.inl e1, Or.inl e2⟩, Or.inl e3⟩
        · exact ⟨⟨Or.inl e1, Or.inl e2⟩, Or.inr (h3 e3)⟩
      · by_cases e3 : sp.filter_categories = []
        · exact ⟨⟨Or.inl e1, Or.inr (h2 e2)⟩, Or.inl e3⟩
        · exact ⟨⟨Or.inl e1, Or.inr (h2 e2)⟩, Or.inr (h3 e3)⟩
    · by_cases e2 : sp.filter_apinames = []
      · by_cases e3 : sp.filter_categories = []
        · exact ⟨⟨Or.inr (h1 e1), Or.inl e2⟩, Or.inl e3⟩
        · exact ⟨⟨Or.inr (h1 e1), Or.inl e2⟩, Or.inr (h3 e3)⟩
      · by_cases e3 : sp.filter_categories = []
        · exact ⟨⟨Or.inr (h1 e1), Or.inr (h2 e2)⟩, Or.inl e3⟩
        · exact ⟨⟨Or.inr (h1 e1), Or.inr (h2 e2)⟩, Or.inr (h3 e3)⟩

theorem namesOf_eq_of_specsOf {e e3 : Engine}
    (hs : specsOf e3 = specsOf e) : namesOf e3 = namesOf e := by
  have h1 : (specsOf e3).map (fun sp => sp.name) =
      (specsOf e).map (fun sp => sp.name) := by rw [hs]
  simpa [specsOf, namesOf, List.map_map, Function.comp] using h1

theorem namesOf_get (e : Engine) (j : Nat) (s : SigState)
    (hj : e.sigs.get? j = some s) :
    (namesOf e).get? j = some s.spec.name := by
  unfold namesOf
  rw [List.get?_map, hj]
  rfl

theorem nodup_name_index {e : Engine} (hnd : (namesOf e).Nodup)
    {j j2 : Nat} {s s2 : SigState} (hj : e.sigs.get? j = some s)
    (hj2 : e.sigs.get? j2 = some s2)
    (hname : s2.spec.name = s.spec.name) : j2 = j := by
  have h1 := namesOf_get e j s hj
  have h2 := namesOf_get e j2 s2 hj2
  have hlt : j2 < (namesOf e).length := (List.get?_eq_some.mp h2).1
  apply List.getElem?_inj hlt hnd
  rw [← List.get?_eq_getElem?, ← List.get?_eq_getElem?, h1, h2, hname]

theorem callStep_none (fuel : Nat) (p : ProcRec) (idx : Nat) (c : CallRec)
    (e : Engine) (j : Nat) (hg : e.sigs.get? j = none) :
    callStep fuel p idx c e j = (e, []) := by
  unfold callStep
  rw [hg]

theorem callStep_pass (fuel : Nat) (p : ProcRec) (idx : Nat) (c : CallRec)
    (e : Engine) (j : Nat) (s : SigState) (hg : e.sigs.get? j = some s)
    (hpass : callPasses s.spec p.process_name c = true) :
    callStep fuel p idx c e j = call_signature fuel (setCidAt e j idx) j
      ⟨"on_call", some c.api, fun sp => sp.on_call c p⟩ := by
  unfold callStep
  rw [hg]
  show (if callPasses s.spec p.process_name c = true then _ else _) = _
  rw [if_pos hpass]

theorem callStep_fail (fuel : Nat) (p : ProcRec) (idx : Nat) (c : CallRec)
    (e : Engine) (j : Nat) (s : SigState) (hg : e.sigs.get? j = some s)
    (hpass : callPasses s.spec p.process_name c = false) :
    callStep fuel p idx c e j = (e, []) := by
  unfold callStep
  rw [hg]
  show (if callPasses s.spec p.process_name c = true then _ else _) = _
  rw [if_neg (by rw [hpass]; exact Bool.false_ne_true)]

theorem callStep_specs (fuel : Nat) (p : ProcRec) (idx : Nat) (c : CallRec)
    (e : Engine) (j : Nat) :
    specsOf (callStep fuel p idx c e j).1 = specsOf e := by
  cases hg : e.sigs.get? j with
  | none => rw [callStep_none fuel p idx c e j hg]
  | some s =>
    cases hpass : callPasses s.spec p.process_name c with
    | true =>
      rw [callStep_pass fuel p idx c e j s hg hpass, cs_specs,
        specsOf_setCidAt]
    | false => rw [callStep_fail fuel p idx c e j s hg hpass]

theorem setCidAt_get (e : Engine) (j idx : Nat) (s : SigState)
    (hj : e.sigs.get? j = some s) :
    (setCidAt e j idx).sigs.get? j = some { s with cid := idx } :=
  modifySig_get_self _ _ _ _ hj

/-- Claim C7: during one call of the trace, a signature receives an
`on_call` dispatch if and only if the call passes all of its non-empty
filter sets; an empty filter imposes no constraint. -/
theorem claim_C7_filter_gate (fuel : Nat) (e : Engine) (p : ProcRec)
    (idx : Nat) (c : CallRec) (j : Nat) (s : SigState)
    (hg : e.sigs.get? j = some s) (hnd : (namesOf e).Nodup)
    (hfuel : 1 ≤ fuel) :
    ((⟨.dispatched, s.spec.name, "on_call", some c.api⟩ : Ev) ∈
      (replayOneCall fuel p idx c e).2) ↔ SpecPass s.spec p.process_name c := by
  unfold replayOneCall
  constructor
  · intro hmem
    obtain ⟨j2, e3, hj2, hp3, hm3⟩ := runSeq_events_decomp _
      (fun e3 => specsOf e3 = specsOf e)
      (fun e3 k h3 => (callStep_specs fuel p idx c e3 k).trans h3)
      _ _ rfl _ hmem
    cases hg3 : e3.sigs.get? j2 with
    | none => rw [callStep_none fuel p idx c e3 j2 hg3] at hm3; simp at hm3
    | some s3 =>
      cases hpass : callPasses s3.spec p.process_name c with
      | true =>
        rw [callStep_pass fuel p idx c e3 j2 s3 hg3 hpass] at hm3
        rcases cs_events_shape fuel _ j2 _ _ hm3 with ⟨s4, hg4, hsig, _, _⟩ | htag
        · have hg4b := setCidAt_get e3 j2 idx s3 hg3
          rw [hg4b] at hg4
          cases hg4
          have hname : s3.spec.name = s.spec.name := hsig.symm
          have hje : j2 = j := by
            have hs3e : specsOf e3 = specsOf e := hp3
            obtain ⟨s3e, hg3e, hsp3e⟩ :=
              @get_spec_of_specsOf e3 e (by rw [hs3e]) j2 s3 hg3
            exact nodup_name_index hnd hg
              (by exact hg3e) (by rw [hsp3e, hname])
          subst hje
          obtain ⟨s3b, hg3b, hsp3b⟩ := get_spec_of_specsOf hp3 hg
          rw [hg3b] at hg3
          cases hg3
          rw [← callPasses_iff]
          rw [hsp3b] at hpass
          exact hpass
        · simp at htag
      | false =>
        rw [callStep_fail fuel p idx c e3 j2 s3 hg3 hpass] at hm3
        simp at hm3
  · intro hsp
    have hjlt : j < e.sigs.length := (List.get?_eq_some.mp hg).1
    refine runSeq_mem_of_step _ (fun e3 => specsOf e3 = specsOf e)
      (fun e3 k h3 => (callStep_specs fuel p idx c e3 k).trans h3) j _ ?_
      _ _ rfl (List.mem_range.mpr hjlt)
    intro e3 h3
    obtain ⟨s3, hg3, hsp3⟩ := get_spec_of_specsOf h3 hg
    have hpass : callPasses s3.spec p.process_name c = true := by
      rw [hsp3]
      exact (callPasses_iff _ _ _).mpr hsp
    rw [callStep_pass fuel p idx c e3 j s3 hg3 hpass]
    have hg4 := setCidAt_get e3 j idx s3 hg3
    have := cs_dispatch_mem fuel _ j
      ⟨"on_call", some c.api, fun sp => sp.on_call c p⟩ _ hg4 hfuel
    rw [show ({ s3 with cid := idx } : SigState).spec.name = s.spec.name from
      by rw [hsp3]] at this
    exact this

/-! ### The stable key sort: permutation, sortedness, stability -/

theorem insertByKey_perm (key : α → Nat) (a : α) :
    ∀ l : List α, (insertByKey key a l).Perm (a :: l) := by
  intro l
  induction l with
  | nil => exact List.Perm.refl _
  | cons b l ih =>
    unfold insertByKey
    by_cases hab : key a ≤ key b
    · rw [if_pos hab]
    · rw [if_neg hab]
      exact (List.Perm.cons b ih).trans (List.Perm.swap a b l)

theorem sortByKey_perm (key : α → Nat) :
    ∀ l : List α, (sortByKey key l).Perm l := by
  intro l
  induction l with
  | nil => exact List.Perm.refl _
  | cons a l ih =>
    unfold sortByKey
    exact (insertByKey_perm key a _).trans (ih.cons a)

theorem insertByKey_mem (key : α → Nat) (a x : α) (l : List α) :
    x ∈ insertByKey key a l ↔ x = a ∨ x ∈ l := by
  rw [(insertByKey_perm key a l).mem_iff, List.mem_cons]

theorem insertByKey_pairwise (key : α → Nat) (a : α) :
    ∀ l : List α, List.Pairwise (fun x y => key x ≤ key y) l →
      List.Pairwise (fun x y => key x ≤ key y) (insertByKey key a l) := by
  intro l
  induction l with
  | nil => intro _; exact List.pairwise_singleton _ a
  | cons b l ih =>
    intro h
    rcases List.pairwise_cons.mp h with ⟨hb, hl⟩
    unfold insertByKey
    by_cases hab : key a ≤ key b
    · rw [if_pos hab]
      refine List.pairwise_cons.mpr ⟨?_, h⟩
      intro x hx
      rcases List.mem_cons.mp hx with rfl | hx2
      · exact hab
      · exact le_trans hab (hb x hx2)
    · rw [if_neg hab]
      refine List.pairwise_cons.mpr ⟨?_, ih hl⟩
      intro x hx
      rcases (insertByKey_mem key a x l).mp hx with rfl | hx2
      · omega
      · exact hb x hx2

theorem sortByKey_pairwise (key : α → Nat) :
    ∀ l : List α, List.Pairwise (fun x y => key x ≤ key y)
      (sortByKey key l) := by
  intro l
  induction l with
  | nil => exact List.Pairwise.nil
  | cons a l ih => exact insertByKey_pairwise key a _ ih

theorem insertByKey_filter (key : α → Nat) (a : α) (v : Nat) :
    ∀ l : List α, (insertByKey key a l).filter (fun x => key x == v) =
      if key a == v then a :: l.filter (fun x => key x == v)
      else l.filter (fun x => key x == v) := by
  intro l
  induction l with
  | nil =>
    by_cases hv : key a == v
    · simp [insertByKey, List.filter, hv]
    · simp [insertByKey, List.filter, hv]
  | cons b l ih =>
    unfold insertByKey
    by_cases hab : key a ≤ key b
    · rw [if_pos hab]
      by_cases hv : (key a == v) = true
      · simp only [List.filter_cons, hv, if_true]
      · simp only [List.filter_cons, hv, if_false]
    · rw [if_neg hab]
      simp only [List.filter_cons, ih]
      by_cases hbv : (key b == v) = true
      · by_cases hv : (key a == v) = true
        · exfalso
          have h1 : key a = v := by simpa using hv
          have h2 : key b = v := by simpa using hbv
          omega
        · simp [hbv, hv]
      · by_cases hv : (key a == v) = true
        · simp [hbv, hv]
        · simp [hbv, hv]

theorem sortByKey_filter (key : α → Nat) (v : Nat) :
    ∀ l : List α, (sortByKey key l).filter (fun x => key x == v) =
      l.filter (fun x => key x == v) := by
  intro l
  induction l with
  | nil => rfl
  | cons a l ih =>
    unfold sortByKey
    rw [insertByKey_filter, List.filter_cons]
    by_cases hv : (key a == v) = true
    · rw [if_pos hv, if_pos hv, ih]
    · rw [if_neg hv, if_neg hv, ih]

/-! ### Claim C2: the init/quickout pass (code bug) -/

/-- Claim C2 evidence: with signatures `[A, B]` where `A.quickout()` returns
true, the init/quickout loop of `RunSignatures.run` mutates
`self.signatures` while iterating over it, so `B` is skipped entirely: its
`init()` and `quickout()` hooks are never invoked (the visit log is `["A"]`),
yet `B` stays in the active set un-initialized.  The claim (and the spec)
require every loaded signature's `init` and `quickout` to run exactly
once. -/
theorem claim_C2_quickout_skips_next :
    (quickoutPass [qSigA, qSigB]).2 = ["A"] ∧
    "B" ∉ (quickoutPass [qSigA, qSigB]).2 ∧
    (quickoutPass [qSigA, qSigB]).1.map (fun s => s.spec.name) = ["B"] := by
  refine ⟨rfl, ?_, rfl⟩
  intro hmem
  have h1 : (quickoutPass [qSigA, qSigB]).2 = ["A"] := rfl
  rw [h1] at hmem
  simp at hmem

/-! ### Claim C4: version gating (corrected) -/

theorem sverLt_12_20 (m : SVer) (h : sverLt m ⟨1, 2, 0⟩ = true) :
    sverLt m ⟨2, 0, 0⟩ = true := by
  unfold sverLt at h ⊢
  simp only [Bool.or_eq_true, Bool.and_eq_true, Nat.blt_eq,
    Nat.beq_eq_true_eq, Nat.beq_eq] at h ⊢
  omega

/-- Claim C4 counterexample: a signature with `minimum = "1.5"` is enabled
and its version constraints admit engine version 2.9, yet
`check_signature_version` rejects it (the source also drops any signature
whose minimum predates 2.0), so the claim's "if and only if" fails. -/
theorem claim_C4_counterexample :
    sigMin15.enabled = true ∧
    specVersionAdmits ⟨2, 9, 0⟩ sigMin15 = true ∧
    check_signature_version ⟨2, 9, 0⟩ sigMin15 = false :=
  ⟨rfl, rfl, rfl⟩

theorem check_eq_admits_and_legacy (engine : SVer) (s : SigSpec) :
    check_signature_version engine s =
      (specVersionAdmits engine s && legacyOk s) := by
  unfold check_signature_version checkMin checkMax specVersionAdmits legacyOk
  cases hmin : s.minimum with
  | unset => cases hmax : s.maximum with
    | unset => simp
    | invalid => simp
    | ver mx => simp
  | invalid => simp
  | ver m =>
    by_cases he : sverLt engine m = true
    · simp [he]
    · replace he : sverLt engine m = false := by
        cases h2 : sverLt engine m
        · rfl
        · exact absurd h2 he
      by_cases h12 : sverLt m ⟨1, 2, 0⟩ = true
      · have h20 := sverLt_12_20 m h12
        simp [he, h12, h20]
      · replace h12 : sverLt m ⟨1, 2, 0⟩ = false := by
          cases h2 : sverLt m ⟨1, 2, 0⟩
          · rfl
          · exact absurd h2 h12
        by_cases h20 : sverLt m ⟨2, 0, 0⟩ = true
        · simp [he, h12, h20]
        · replace h20 : sverLt m ⟨2, 0, 0⟩ = false := by
            cases h2 : sverLt m ⟨2, 0, 0⟩
            · rfl
            · exact absurd h2 h20
          cases hr : s.has_run
          · simp [he, h12, h20, hr]
          · simp [he, h12, h20, hr]

/-- Claim C4 as amended: an enabled registered signature is loaded iff its
version constraints admit the engine version (minimum not above it, maximum
not below it, both parseable) *and* it passes the legacy checks the source
additionally applies: a declared minimum must not predate version 2.0 and
the signature must not feature the deprecated `run` method.  The claim's own
examples hold: minimum 3.0 is excluded at engine 2.9 and included at 3.0 and
3.1; maximum 2.0 is excluded at engine 2.1. -/
theorem claim_C4_version_gate_amended :
    (∀ (engine : SVer) (s : SigSpec),
      check_signature_version engine s =
        (specVersionAdmits engine s && legacyOk s)) ∧
    (∀ (engine : SVer) (regs : List SigSpec) (sp : SigSpec),
      (⟨sp, false, 0, 0⟩ : SigState) ∈ loadSigs engine regs ↔
        sp ∈ regs ∧ (sp.enabled && check_signature_version engine sp)
          = true) ∧
    check_signature_version ⟨2, 9, 0⟩ sigMin30 = false ∧
    check_signature_version ⟨3, 0, 0⟩ sigMin30 = true ∧
    check_signature_version ⟨3, 1, 0⟩ sigMin30 = true ∧
    check_signature_version ⟨2, 1, 0⟩ sigMax20 = false := by
  refine ⟨check_eq_admits_and_legacy, ?_, rfl, rfl, rfl, rfl⟩
  intro engine regs sp
  unfold loadSigs
  simp only [List.mem_map, List.mem_filter]
  constructor
  · rintro ⟨sp2, ⟨hmem, hcheck⟩, heq⟩
    cases heq
    exact ⟨hmem, hcheck⟩
  · rintro ⟨hmem, hcheck⟩
    exact ⟨sp, ⟨hmem, hcheck⟩, rfl⟩

/-! ### Claim C5: per-module fault isolation (corrected) -/

theorem getValP_setValP_self (k : String) (v : Nat) :
    ∀ res : PResMap, getValP (setValP res k v) k = some v := by
  intro res
  induction res with
  | nil => simp [setValP, getValP]
  | cons kv rest ih =>
    unfold setValP
    by_cases hk : (kv.1 == k) = true
    · rw [if_pos hk]
      unfold getValP
      rw [if_pos hk]
    · rw [if_neg hk]
      unfold getValP
      rw [if_neg hk]
      exact ih

theorem getValP_setValP_ne (k k2 : String) (v : Nat) (hne : k2 ≠ k) :
    ∀ res : PResMap, getValP (setValP res k v) k2 = getValP res k2 := by
  intro res
  induction res with
  | nil =>
    simp only [setValP, getValP]
    rw [if_neg (fun h : (k == k2) = true => hne (eq_of_beq h).symm)]
  | cons kv rest ih =>
    unfold setValP
    by_cases hk : (kv.1 == k) = true
    · rw [if_pos hk]
      unfold getValP
      by_cases hk2 : (kv.1 == k2) = true
      · exfalso
        apply hne
        have e1 : kv.1 = k := by simpa using hk
        have e2 : kv.1 = k2 := by simpa using hk2
        rw [← e1, e2]
      · rw [if_neg hk2, if_neg hk2]
    · rw [if_neg hk]
      unfold getValP
      by_cases hk2 : (kv.1 == k2) = true
      · rw [if_pos hk2, if_pos hk2]
      · rw [if_neg hk2, if_neg hk2]
        exact ih

theorem runProcList_visited : ∀ (mods : List PMod) (res : PResMap),
    (runProcList res mods).2 = mods.map (fun m => m.name) := by
  intro mods
  induction mods with
  | nil => intro res; rfl
  | cons m rest ih =>
    intro res
    unfold runProcList
    simp only [List.map_cons]
    rw [ih]

theorem runProcList_untouched : ∀ (mods : List PMod) (res : PResMap)
    (k : String), (∀ m ∈ mods, m.key ≠ k) →
    getValP (runProcList res mods).1 k = getValP res k := by
  intro mods
  induction mods with
  | nil => intro res k _; rfl
  | cons m rest ih =>
    intro res k hk
    unfold runProcList
    have hm : m.key ≠ k := hk m (List.mem_cons_self _ _)
    have hrest : ∀ m2 ∈ rest, m2.key ≠ k :=
      fun m2 h2 => hk m2 (List.mem_cons_of_mem _ h2)
    rw [ih _ k hrest]
    cases hpm : processModule m with
    | none => rfl
    | some kd =>
      show getValP (if (kd.1 != "" && kd.2 != 0) = true
        then setValP res kd.1 kd.2 else res) k = getValP res k
      by_cases htr : (kd.1 != "" && kd.2 != 0) = true
      · rw [if_pos htr]
        have hkd : kd.1 = m.key := by
          unfold processModule at hpm
          by_cases h1 : (!m.instOk) = true
          · rw [if_pos h1] at hpm; cases hpm
          · rw [if_neg h1] at hpm
            by_cases h2 : (!m.cfgPresent) = true
            · rw [if_pos h2] at hpm; cases hpm
            · rw [if_neg h2] at hpm
              by_cases h3 : (!m.enabled) = true
              · rw [if_pos h3] at hpm; cases hpm
              · rw [if_neg h3] at hpm
                cases hro : m.runOut with
                | ok d => rw [hro] at hpm; cases hpm; rfl
                | depErr => rw [hro] at hpm; cases hpm
                | procErr => rw [hro] at hpm; cases hpm
                | err => rw [hro] at hpm; cases hpm
        rw [getValP_setValP_ne _ _ _ (by rw [hkd]; exact fun h => hm h.symm)]
      · rw [if_neg htr]

theorem processModule_key (m : PMod) (kd : String × Nat)
    (hpm : processModule m = some kd) : kd.1 = m.key := by
  unfold processModule at hpm
  by_cases h1 : (!m.instOk) = true
  · rw [if_pos h1] at hpm; cases hpm
  · rw [if_neg h1] at hpm
    by_cases h2 : (!m.cfgPresent) = true
    · rw [if_pos h2] at hpm; cases hpm
    · rw [if_neg h2] at hpm
      by_cases h3 : (!m.enabled) = true
      · rw [if_pos h3] at hpm; cases hpm
      · rw [if_neg h3] at hpm
        cases hro : m.runOut with
        | ok d => rw [hro] at hpm; cases hpm; rfl
        | depErr => rw [hro] at hpm; cases hpm
        | procErr => rw [hro] at hpm; cases hpm
        | err => rw [hro] at hpm; cases hpm

theorem runProcList_lookup : ∀ (mods : List PMod) (res : PResMap),
    (mods.map (fun m => m.key)).Nodup →
    ∀ m ∈ mods, getValP res m.key = none →
      getValP (runProcList res mods).1 m.key = pContrib m := by
  intro mods
  induction mods with
  | nil => intro res _ m hm; cases hm
  | cons m0 rest ih =>
    intro res hnd m hm hres
    have hnd2 : (rest.map (fun m => m.key)).Nodup :=
      (List.nodup_cons.mp hnd).2
    have hm0rest : m0.key ∉ rest.map (fun m => m.key) :=
      (List.nodup_cons.mp hnd).1
    unfold runProcList
    rcases List.mem_cons.mp hm with rfl | hmr
    · have huntouched : ∀ m2 ∈ rest, m2.key ≠ m.key := by
        intro m2 h2 heq
        exact hm0rest (heq ▸ List.mem_map_of_mem (fun m3 => m3.key) h2)
      rw [runProcList_untouched rest _ m.key huntouched]
      unfold pContrib
      cases hpm : processModule m with
      | none => exact hres
      | some kd =>
        have hkd := processModule_key m kd hpm
        show getValP (if (kd.1 != "" && kd.2 != 0) = true
            then setValP res kd.1 kd.2 else res) m.key =
          (if (kd.1 != "" && kd.2 != 0) = true then some kd.2 else none)
        by_cases htr : (kd.1 != "" && kd.2 != 0) = true
        · rw [if_pos htr, if_pos htr, ← hkd]
          exact getValP_setValP_self kd.1 kd.2 res
        · rw [if_neg htr, if_neg htr]
          exact hres
    · have hres2 : getValP (match processModule m0 with
        | some kd => if kd.1 != "" && kd.2 != 0 then setValP res kd.1 kd.2
            else res
        | none => res) m.key = none := by
        cases hpm : processModule m0 with
        | none => exact hres
        | some kd =>
          show getValP (if (kd.1 != "" && kd.2 != 0) = true
            then setValP res kd.1 kd.2 else res) m.key = none
          by_cases htr : (kd.1 != "" && kd.2 != 0) = true
          · rw [if_pos htr]
            have hkd := processModule_key m0 kd hpm
            have hne : m.key ≠ kd.1 := by
              rw [hkd]
              intro heq
              exact hm0rest
                (heq ▸ List.mem_map_of_mem (fun m3 => m3.key) hmr)
            rw [getValP_setValP_ne _ _ _ hne]
            exact hres
          · rw [if_neg htr]
            exact hres
      exact ih _ hnd2 m hmr hres2

theorem runRepLoop_visited : ∀ mods : List RMod,
    (runRepLoop mods).2 = mods.map (fun m => m.name) := by
  intro mods
  induction mods with
  | nil => rfl
  | cons m rest ih =>
    unfold runRepLoop
    simp only [List.map_cons]
    rw [ih]

theorem runAuxStart_visited : ∀ mods : List AuxMod,
    (∀ m ∈ mods, m.instOk = true) →
    (runAuxStart mods).2 = mods.map (fun m => m.name) := by
  intro mods
  induction mods with
  | nil => intro _; rfl
  | cons m rest ih =>
    intro hinst
    have hm : m.instOk = true := hinst m (List.mem_cons_self _ _)
    have hrest := fun m2 h2 => hinst m2 (List.mem_cons_of_mem _ h2)
    unfold runAuxStart
    rw [if_pos hm]
    simp only [List.map_cons]
    by_cases hcfg : (!m.cfgPresent) = true
    · rw [if_pos hcfg, ih hrest]
    · rw [if_neg hcfg]
      by_cases hen : (!m.enabled) = true
      · rw [if_pos hen, ih hrest]
      · rw [if_neg hen]
        cases hso : m.startOut with
        | ok => simp only []; rw [ih hrest]
        | notImpl => simp only []; rw [ih hrest]
        | err => simp only []; rw [ih hrest]

/-- Claim C5 counterexample: auxiliary module `a` fails to instantiate and
module `b` is perfectly fine, yet `RunAuxiliary.start` executes `return`
on the instantiation failure, so `b` is never visited or started — the
auxiliary stage does not continue with the remaining modules.  Run alone,
`b` starts fine. -/
theorem claim_C5_counterexample :
    (runAuxStart [auxA, auxB]).2 = [] ∧
    (runAuxStart [auxA, auxB]).1 = [] ∧
    (runAuxStart [auxB]).1 = ["b"] ∧
    (runAuxStart [auxB]).2 = ["b"] := by
  refine ⟨rfl, rfl, rfl, rfl⟩

/-- Claim C5 as amended: in the processing and reporting stages every
module failure is contained — every module of the stage is visited
regardless of other modules' failures, and the processing results map holds
exactly each module's successful contribution (present for a module that ran
successfully with truthy key and data, absent for a failing module).  In the
auxiliary stage, failures during configuration lookup or `start()` are
likewise contained, and when every module instantiates, all modules are
visited; an instantiation failure, however, aborts the remaining auxiliary
modules (the source executes `return`, not `continue`) — no stage ever
raises past its boundary (all runners are total functions). -/
theorem claim_C5_fault_isolation_amended :
    (∀ mods : List PMod, (runProcessing mods).2 =
      (sortByKey (fun m => m.order) mods).map (fun m => m.name)) ∧
    (∀ mods : List PMod, (mods.map (fun m => m.key)).Nodup →
      ∀ m ∈ mods, getValP (runProcessing mods).1 m.key = pContrib m) ∧
    (∀ mods : List RMod, (runReporting mods).2 =
      (sortByKey (fun m => m.order) mods).map (fun m => m.name)) ∧
    (∀ mods : List AuxMod, (∀ m ∈ mods, m.instOk = true) →
      (runAuxStart mods).2 = mods.map (fun m => m.name)) := by
  refine ⟨?_, ?_, ?_, runAuxStart_visited⟩
  · intro mods
    unfold runProcessing
    by_cases hne : mods.isEmpty = true
    · rw [if_pos hne]
      rw [List.isEmpty_iff.mp hne]
      rfl
    · rw [if_neg hne]
      exact runProcList_visited _ _
  · intro mods hnd m hm
    unfold runProcessing
    by_cases hne : mods.isEmpty = true
    · rw [List.isEmpty_iff.mp hne] at hm
      cases hm
    · rw [if_neg hne]
      have hperm : (sortByKey (fun m2 => m2.order) mods).Perm mods :=
        sortByKey_perm _ _
      have hnd2 : ((sortByKey (fun m2 => m2.order) mods).map
          (fun m2 => m2.key)).Nodup :=
        ((hperm.map (fun m2 => m2.key)).nodup_iff).mpr hnd
      have hm2 : m ∈ sortByKey (fun m2 => m2.order) mods :=
        hperm.mem_iff.mpr hm
      exact runProcList_lookup _ [] hnd2 m hm2 rfl
  · intro mods
    unfold runReporting
    by_cases hne : mods.isEmpty = true
    · rw [if_pos hne]
      rw [List.isEmpty_iff.mp hne]
      rfl
    · rw [if_neg hne]
      exact runRepLoop_visited _

/-! ### Claim C8: the plugin registry (corrected) -/

theorem list_plugins_register_self {α : Type} (g : String) (x : α) :
    ∀ r : Registry α,
      list_plugins (register_plugin r g x) g = list_plugins r g ++ [x] := by
  intro r
  induction r with
  | nil =>
    unfold register_plugin list_plugins regLookup
    rw [if_pos (by simp)]
    rfl
  | cons kl rest ih =>
    unfold register_plugin
    by_cases hk : (kl.1 == g) = true
    · rw [if_pos hk]
      unfold list_plugins regLookup
      rw [if_pos hk, if_pos hk]
      rfl
    · rw [if_neg hk]
      unfold list_plugins regLookup
      rw [if_neg hk, if_neg hk]
      exact ih

theorem list_plugins_register_other {α : Type} (g g2 : String) (x : α)
    (hne : g2 ≠ g) : ∀ r : Registry α,
      list_plugins (register_plugin r g x) g2 = list_plugins r g2 := by
  intro r
  induction r with
  | nil =>
    unfold register_plugin list_plugins regLookup
    rw [if_neg (fun h : (g == g2) = true => hne (eq_of_beq h).symm)]
    rfl
  | cons kl rest ih =>
    unfold register_plugin
    by_cases hk : (kl.1 == g) = true
    · rw [if_pos hk]
      unfold list_plugins regLookup
      rw [if_neg (fun h : (kl.1 == g2) = true =>
        hne ((eq_of_beq h).symm.trans (eq_of_beq hk))),
        if_neg (fun h : (kl.1 == g2) = true =>
        hne ((eq_of_beq h).symm.trans (eq_of_beq hk)))]
    · rw [if_neg hk]
      unfold list_plugins regLookup
      by_cases hk2 : (kl.1 == g2) = true
      · rw [if_pos hk2, if_pos hk2]
      · rw [if_neg hk2, if_neg hk2]
        exact ih

theorem regSet_lookup {α : Type} (g : String) (l0 l2 : List α) :
    ∀ r : Registry α, regLookup r g = some l0 →
      regLookup (regSet r g l2) g = some l2 := by
  intro r
  induction r with
  | nil => intro h; cases h
  | cons kl rest ih =>
    intro h
    unfold regSet
    by_cases hk : (kl.1 == g) = true
    · rw [if_pos hk]
      unfold regLookup
      rw [if_pos hk]
    · rw [if_neg hk]
      unfold regLookup
      rw [if_neg hk]
      unfold regLookup at h
      rw [if_neg hk] at h
      exact ih h

theorem runProcessingReg_sorts (r : Registry PMod)
    (hne : list_plugins r "processing" ≠ []) :
    list_plugins (runProcessingReg r).1 "processing" =
      sortByKey (fun m => m.order) (list_plugins r "processing") := by
  unfold runProcessingReg
  rw [if_neg (by simpa [List.isEmpty_iff] using hne)]
  cases hl : regLookup r "processing" with
  | none =>
    exfalso
    apply hne
    unfold list_plugins
    rw [hl]
    rfl
  | some l0 =>
    show list_plugins (regSet r "processing" _) "processing" = _
    unfold list_plugins
    rw [regSet_lookup "processing" l0 _ r hl]
    rfl

/-- Claim C8 counterexample: plugin `b` (order 2) is registered before
plugin `a` (order 1); `list_plugins` initially returns registration order
`[b, a]`, but `RunProcessing.run` sorts the registry's own list in place by
`order`, so after one pipeline run `list_plugins` returns `[a, b]` —
registration order of the group's list is *not* preserved across pipeline
runs. -/
theorem claim_C8_counterexample :
    list_plugins regBA "processing" = [pmodB, pmodA] ∧
    list_plugins (runProcessingReg regBA).1 "processing" =
      [pmodA, pmodB] ∧
    list_plugins (runProcessingReg regBA).1 "processing" ≠
      list_plugins regBA "processing" := by
  refine ⟨rfl, rfl, ?_⟩
  intro h
  have h1 : list_plugins (runProcessingReg regBA).1 "processing" =
      [pmodA, pmodB] := rfl
  have h2 : list_plugins regBA "processing" = [pmodB, pmodA] := rfl
  rw [h1, h2] at h
  simp [pmodA, pmodB] at h

/-- Claim C8 as amended: `register(group, descriptor)` appends to the
group's stored list (duplicates allowed) and leaves other groups unchanged;
`list(group)` returns the stored list, empty when the group was never
registered; `list()` with no argument is the registry mapping itself.  The
stored list is in registration order only until a processing run: the
in-place sort of `RunProcessing.run` leaves the registry's `"processing"`
list stably sorted by module `order`. -/
theorem claim_C8_registry_amended :
    (∀ (r : Registry PMod) (g : String) (x : PMod),
      list_plugins (register_plugin r g x) g = list_plugins r g ++ [x]) ∧
    (∀ (r : Registry PMod) (g g2 : String) (x : PMod), g2 ≠ g →
      list_plugins (register_plugin r g x) g2 = list_plugins r g2) ∧
    (∀ (r : Registry PMod) (g : String) (x : PMod),
      list_plugins (register_plugin (register_plugin r g x) g x) g =
        list_plugins r g ++ [x, x]) ∧
    (∀ g : String, list_plugins ([] : Registry PMod) g = []) ∧
    (∀ r : Registry PMod, list_plugins r "processing" ≠ [] →
      list_plugins (runProcessingReg r).1 "processing" =
        sortByKey (fun m => m.order) (list_plugins r "processing")) := by
  refine ⟨fun r g x => list_plugins_register_self g x r,
    fun r g g2 x h => list_plugins_register_other g g2 x h r, ?_,
    fun g => rfl, runProcessingReg_sorts⟩
  intro r g x
  rw [list_plugins_register_self g x (register_plugin r g x),
    list_plugins_register_self g x r]
  simp

/-! ### Claim C1: the collection invariant of the engine -/

theorem mem_modifySig_iff (l : List SigState) (i : Nat)
    (f : SigState → SigState) (s : SigState) (hg : l.get? i = some s)
    (x : SigState) : x ∈ modifySig l i f ↔
      (∃ k, k ≠ i ∧ l.get? k = some x) ∨ x = f s := by
  rw [List.mem_iff_get?]
  constructor
  · rintro ⟨k, hk⟩
    by_cases hki : k = i
    · subst hki
      rw [modifySig_get_self _ _ _ _ hg] at hk
      exact Or.inr (Option.some_inj.mp hk).symm
    · rw [modifySig_get_ne _ _ _ _ hki] at hk
      exact Or.inl ⟨k, hki, hk⟩
  · rintro (⟨k, hki, hk⟩ | rfl)
    · exact ⟨k, by rw [modifySig_get_ne _ _ _ _ hki]; exact hk⟩
    · exact ⟨i, modifySig_get_self _ _ _ _ hg⟩

theorem mem_of_get? {l : List SigState} {k : Nat} {x : SigState}
    (h : l.get? k = some x) : x ∈ l :=
  List.mem_iff_get?.mpr ⟨k, h⟩

theorem einv_mark (e : Engine) (i : Nat) (s : SigState)
    (hg : e.sigs.get? i = some s) (hinv : EInv e) :
    EInv (recordMatch (markMatchedAt e i) s.spec s.matched) := by
  obtain ⟨hnd, hord, hmat, hond⟩ := hinv
  have hnames : namesOf (markMatchedAt e i) = namesOf e :=
    modifySig_map _ _ _ _ (fun _ => rfl)
  have hsigs2 : ∀ x, x ∈ (markMatchedAt e i).sigs ↔
      (∃ k, k ≠ i ∧ e.sigs.get? k = some x) ∨
      x = { s with matched := true } :=
    fun x => mem_modifySig_iff e.sigs i _ s hg x
  have hord2 : ∀ d ∈ e.order, ∃ st ∈ (markMatchedAt e i).sigs,
      st.spec.name = d.name ∧ st.spec.severity = d.severity ∧
      st.matched = true := by
    intro d hd
    obtain ⟨st, hst, hn, hs, hm⟩ := hord d hd
    obtain ⟨k, hk⟩ := List.mem_iff_get?.mp hst
    by_cases hki : k = i
    · subst hki
      rw [hg] at hk
      cases Option.some_inj.mp hk
      refine ⟨{ s with matched := true }, (hsigs2 _).mpr (Or.inr rfl),
        hn, hs, rfl⟩
    · exact ⟨st, (hsigs2 _).mpr (Or.inl ⟨k, hki, hk⟩), hn, hs, hm⟩
  have hmat2 : ∀ st ∈ (markMatchedAt e i).sigs, st.matched = true →
      st.spec.name ∈ e.order.map (fun d => d.name) ∨
      st.spec.name = s.spec.name := by
    intro st hst hm
    rcases (hsigs2 st).mp hst with ⟨k, hki, hk⟩ | rfl
    · exact Or.inl (hmat st (mem_of_get? hk) hm)
    · by_cases hwas : s.matched = true
      · exact Or.inl (hmat s (mem_of_get? hg) hwas)
      · exact Or.inr rfl
  unfold recordMatch
  by_cases hwas : s.matched = true
  · rw [if_pos hwas]
    refine ⟨by rw [show namesOf (markMatchedAt e i) = namesOf e from
      hnames]; exact hnd, hord2, ?_, hond⟩
    intro st hst hm
    rcases (hsigs2 st).mp hst with ⟨k, hki, hk⟩ | rfl
    · exact hmat st (mem_of_get? hk) hm
    · exact hmat s (mem_of_get? hg) hwas
  · rw [if_neg hwas]
    have hnot : s.spec.name ∉ e.order.map (fun d => d.name) := by
      intro hmem
      obtain ⟨d, hd, hdn⟩ := List.mem_map.mp hmem
      obtain ⟨st, hst, hn, _, hm⟩ := hord d hd
      obtain ⟨k, hk⟩ := List.mem_iff_get?.mp hst
      have hki : k = i := by
        refine nodup_name_index hnd hg hk ?_
        rw [hn, hdn]
      subst hki
      rw [hg] at hk
      cases Option.some_inj.mp hk
      exact hwas hm
    refine ⟨?_, ?_, ?_, ?_⟩
    · have h1 : (namesOf (markMatchedAt e i)).Nodup := by
        rw [hnames]; exact hnd
      exact h1
    · intro d hd
      rcases List.mem_append.mp hd with hd1 | hd2
      · exact hord2 d hd1
      · rcases List.mem_singleton.mp hd2 with rfl
        exact ⟨{ s with matched := true },
          (hsigs2 _).mpr (Or.inr rfl), rfl, rfl, rfl⟩
    · intro st hst hm
      show st.spec.name ∈
        (e.order ++ [(⟨s.spec.name, s.spec.severity⟩ : Det)]).map
        (fun d => d.name)
      rw [List.map_append, List.mem_append]
      rcases hmat2 st hst hm with h1 | h2
      · exact Or.inl h1
      · exact Or.inr (by rw [h2]; exact List.mem_singleton.mpr rfl)
    · show ((e.order ++ [(⟨s.spec.name, s.spec.severity⟩ : Det)]).map
        (fun d => d.name)).Nodup
      rw [List.map_append]
      refine List.Nodup.append hond (List.nodup_singleton _) ?_
      intro a ha hb
      rcases List.mem_singleton.mp hb with rfl
      exact hnot ha

theorem einv_modify_neutral (e : Engine) (i : Nat)
    (f : SigState → SigState) (hf1 : ∀ s, (f s).matched = s.matched)
    (hf2 : ∀ s, (f s).spec = s.spec) (hinv : EInv e) :
    EInv ⟨modifySig e.sigs i f, e.order⟩ := by
  obtain ⟨hnd, hord, hmat, hond⟩ := hinv
  cases hg : e.sigs.get? i with
  | none =>
    have heq : modifySig e.sigs i f = e.sigs := by
      unfold modifySig
      rw [hg]
    rw [heq]
    exact ⟨hnd, hord, hmat, hond⟩
  | some s =>
    have hsigs2 := fun x => mem_modifySig_iff e.sigs i f s hg x
    refine ⟨?_, ?_, ?_, hond⟩
    · show ((modifySig e.sigs i f).map (fun t => t.spec.name)).Nodup
      rw [modifySig_map _ _ _ _ (fun t => by rw [hf2 t])]
      exact hnd
    · intro d hd
      obtain ⟨st, hst, hn, hs, hm⟩ := hord d hd
      obtain ⟨k, hk⟩ := List.mem_iff_get?.mp hst
      by_cases hki : k = i
      · subst hki
        rw [hg] at hk
        cases Option.some_inj.mp hk
        refine ⟨f s, (hsigs2 _).mpr (Or.inr rfl), ?_, ?_, ?_⟩
        · rw [hf2]; exact hn
        · rw [hf2]; exact hs
        · rw [hf1]; exact hm
      · exact ⟨st, (hsigs2 _).mpr (Or.inl ⟨k, hki, hk⟩), hn, hs, hm⟩
    · intro st hst hm
      rcases (hsigs2 st).mp hst with ⟨k, hki, hk⟩ | rfl
      · exact hmat st (mem_of_get? hk) hm
      · rw [hf2]
        apply hmat s (mem_of_get? hg)
        rw [← hf1]
        exact hm

theorem einv_setPidAt (e : Engine) (i p : Nat) (hinv : EInv e) :
    EInv (setPidAt e i p) :=
  einv_modify_neutral e i _ (fun _ => rfl) (fun _ => rfl) hinv

theorem einv_setCidAt (e : Engine) (i c : Nat) (hinv : EInv e) :
    EInv (setCidAt e i c) :=
  einv_modify_neutral e i _ (fun _ => rfl) (fun _ => rfl) hinv

theorem cs_einv (fuel : Nat) :
    ∀ (e : Engine) (i : Nat) (h : HSel), EInv e →
      EInv (call_signature fuel e i h).1 := by
  induction fuel with
  | zero => intro e i h hinv; exact hinv
  | succ fuel ih =>
    intro e i h hinv
    cases hg : e.sigs.get? i with
    | none => rw [cs_none fuel e i h hg]; exact hinv
    | some s =>
      cases hact : s.spec.is_active with
      | false => rw [cs_inactive fuel e i h s hg hact]; exact hinv
      | true =>
        cases hf : h.fn s.spec with
        | error u => rw [cs_error fuel e i h s u hg hact hf]; exact hinv
        | ok b =>
          cases b with
          | false => rw [cs_okfalse fuel e i h s hg hact hf]; exact hinv
          | true =>
            rw [cs_oktrue fuel e i h s hg hact hf]
            exact runSeq_inv _ EInv (fun e3 j h3 => ih e3 j _ h3) _ _
              (einv_mark e i s hg hinv)

theorem procStep_einv (fuel : Nat) (p : ProcRec) (e : Engine) (j : Nat)
    (hinv : EInv e) : EInv (procStep fuel p e j).1 :=
  cs_einv fuel _ _ _ (einv_setPidAt e j p.pid hinv)

theorem callStep_einv (fuel : Nat) (p : ProcRec) (idx : Nat) (c : CallRec)
    (e : Engine) (j : Nat) (hinv : EInv e) :
    EInv (callStep fuel p idx c e j).1 := by
  cases hg : e.sigs.get? j with
  | none => rw [callStep_none fuel p idx c e j hg]; exact hinv
  | some s =>
    cases hpass : callPasses s.spec p.process_name c with
    | true =>
      rw [callStep_pass fuel p idx c e j s hg hpass]
      exact cs_einv fuel _ _ _ (einv_setCidAt e j idx hinv)
    | false => rw [callStep_fail fuel p idx c e j s hg hpass]; exact hinv

theorem completeStep_einv (fuel : Nat) (e : Engine) (j : Nat)
    (hinv : EInv e) : EInv (completeStep fuel e j).1 :=
  cs_einv fuel _ _ _ hinv

theorem replayOneCall_einv (fuel : Nat) (p : ProcRec) (idx : Nat)
    (c : CallRec) (e : Engine) (hinv : EInv e) :
    EInv (replayOneCall fuel p idx c e).1 :=
  runSeq_inv _ EInv (fun e2 j h2 => callStep_einv fuel p idx c e2 j h2)
    _ _ hinv

theorem replayCalls_einv (fuel : Nat) (p : ProcRec) :
    ∀ (ics : List (Nat × CallRec)) (e : Engine), EInv e →
      EInv (replayCalls fuel p e ics).1 := by
  intro ics
  induction ics with
  | nil => intro e h; exact h
  | cons ic rest ih =>
    intro e h
    exact ih _ (replayOneCall_einv fuel p ic.1 ic.2 e h)

theorem replayProc_einv (fuel : Nat) (e : Engine) (p : ProcRec)
    (hinv : EInv e) : EInv (replayProc fuel e p).1 :=
  replayCalls_einv fuel p _ _
    (runSeq_inv _ EInv (fun e2 j h2 => procStep_einv fuel p e2 j h2)
      _ _ hinv)

theorem replayTrace_einv (fuel : Nat) :
    ∀ (ps : List ProcRec) (e : Engine), EInv e →
      EInv (replayTrace fuel e ps).1 := by
  intro ps
  induction ps with
  | nil => intro e h; exact h
  | cons p rest ih =>
    intro e h
    exact ih _ (replayProc_einv fuel e p h)

theorem quickoutLoop_succ_unfold (steps : Nat) (sigs : List SigState)
    (i : Nat) : quickoutLoop (steps + 1) sigs i =
      (match sigs.get? i with
       | none => (sigs, [])
       | some s =>
         let rest := if s.spec.quickout
           then sigs.eraseP (fun x => x.spec.name == s.spec.name) else sigs
         let r := quickoutLoop steps rest (i + 1)
         (r.1, s.spec.name :: r.2)) := rfl

theorem quickoutLoop_succ_none (steps : Nat) (sigs : List SigState)
    (i : Nat) (hg : sigs.get? i = none) :
    quickoutLoop (steps + 1) sigs i = (sigs, []) := by
  rw [quickoutLoop_succ_unfold, hg]

theorem quickoutLoop_succ_some (steps : Nat) (sigs : List SigState)
    (i : Nat) (s : SigState) (hg : sigs.get? i = some s) :
    quickoutLoop (steps + 1) sigs i =
      (let rest := if s.spec.quickout
         then sigs.eraseP (fun x => x.spec.name == s.spec.name) else sigs
       let r := quickoutLoop steps rest (i + 1)
       (r.1, s.spec.name :: r.2)) := by
  rw [quickoutLoop_succ_unfold, hg]

theorem quickoutLoop_sublist (steps : Nat) :
    ∀ (sigs : List SigState) (i : Nat),
      (quickoutLoop steps sigs i).1.Sublist sigs := by
  induction steps with
  | zero => intro sigs i; exact List.Sublist.refl sigs
  | succ steps ih =>
    intro sigs i
    cases hg : sigs.get? i with
    | none => rw [quickoutLoop_succ_none steps sigs i hg]
    | some s =>
      rw [quickoutLoop_succ_some steps sigs i s hg]
      by_cases hq : s.spec.quickout = true
      · show (quickoutLoop steps (if s.spec.quickout = true
            then sigs.eraseP (fun x => x.spec.name == s.spec.name)
            else sigs) (i + 1)).1.Sublist sigs
        rw [if_pos hq]
        exact (ih _ (i + 1)).trans (List.eraseP_sublist sigs)
      · show (quickoutLoop steps (if s.spec.quickout = true
            then sigs.eraseP (fun x => x.spec.name == s.spec.name)
            else sigs) (i + 1)).1.Sublist sigs
        rw [if_neg hq]
        exact ih sigs (i + 1)

theorem loadSigs_names (engine : SVer) (regs : List SigSpec) :
    (loadSigs engine regs).map (fun t => t.spec.name) =
      (regs.filter (fun s => s.enabled && check_signature_version engine s)
        ).map (fun sp => sp.name) := by
  unfold loadSigs
  rw [List.map_map]
  rfl

theorem loadSigs_matched (engine : SVer) (regs : List SigSpec) :
    ∀ st ∈ loadSigs engine regs, st.matched = false := by
  intro st hst
  obtain ⟨sp, _, heq⟩ := List.mem_map.mp hst
  rw [← heq]

theorem init_einv (engine : SVer) (regs : List SigSpec)
    (hnd : (regs.map (fun s => s.name)).Nodup) :
    EInv ⟨(quickoutPass (loadSigs engine regs)).1, []⟩ := by
  have hsub : (quickoutPass (loadSigs engine regs)).1.Sublist
      (loadSigs engine regs) := quickoutLoop_sublist _ _ 0
  refine ⟨?_, ?_, ?_, List.Pairwise.nil⟩
  · show ((quickoutPass (loadSigs engine regs)).1.map
      (fun t => t.spec.name)).Nodup
    apply List.Nodup.sublist (hsub.map (fun t => t.spec.name))
    rw [loadSigs_names]
    apply List.Nodup.sublist
      ((List.filter_sublist regs).map (fun sp => sp.name))
    exact hnd
  · intro d hd
    cases hd
  · intro st hst hm
    have := loadSigs_matched engine regs st (hsub.subset hst)
    rw [this] at hm
    cases hm

theorem getVal_setVal_self (k : String) (v : RVal) :
    ∀ res : ResMap, getVal (setVal res k v) k = some v := by
  intro res
  induction res with
  | nil => simp [setVal, getVal]
  | cons kv rest ih =>
    unfold setVal
    by_cases hk : (kv.1 == k) = true
    · rw [if_pos hk]
      unfold getVal
      rw [if_pos hk]
    · rw [if_neg hk]
      unfold getVal
      rw [if_neg hk]
      exact ih

theorem runSignatures_einv (fuel : Nat) (engine : SVer)
    (regs : List SigSpec) (results : ResMap)
    (hnd : (regs.map (fun s => s.name)).Nodup) :
    EInv (runSignatures fuel engine regs results).engine := by
  show EInv (runSeq (completeStep fuel)
    (replayTrace fuel ⟨(quickoutPass (loadSigs engine regs)).1, []⟩
      (getProcs results)).1 _).1
  apply runSeq_inv _ EInv (fun e2 j h2 => completeStep_einv fuel e2 j h2)
  apply replayTrace_einv
  exact init_einv engine regs hnd

/-- Claim C1: after signature evaluation completes, the `"signatures"` value
of the results map is exactly the engine's matched-detections list sorted
ascending by severity with a stable sort — sorted, a permutation of the
first-matched-order list, and within each severity class equal to the
first-matched order — and the matched-detections list holds exactly the
names of the signatures whose `matched` flag is true.  The recording of a
detection at a signature's first match is modelled from the spec (see
`recordMatch`), since the `Signature` base class performing it is not under
`src/`. -/
theorem claim_C1_severity_sort (fuel : Nat) (engine : SVer)
    (regs : List SigSpec) (results : ResMap)
    (hnd : (regs.map (fun s => s.name)).Nodup) :
    getVal (runSignatures fuel engine regs results).results "signatures" =
      some (RVal.dets (sortDets
        (runSignatures fuel engine regs results).engine.order)) ∧
    List.Pairwise (fun a b => a.severity ≤ b.severity)
      (sortDets (runSignatures fuel engine regs results).engine.order) ∧
    (sortDets (runSignatures fuel engine regs results).engine.order).Perm
      (runSignatures fuel engine regs results).engine.order ∧
    (∀ v, (sortDets (runSignatures fuel engine regs results).engine.order
        ).filter (fun d => d.severity == v) =
      (runSignatures fuel engine regs results).engine.order.filter
        (fun d => d.severity == v)) ∧
    (∀ nm, nm ∈ (runSignatures fuel engine regs results).engine.order.map
        (fun d => d.name) ↔
      ∃ st ∈ (runSignatures fuel engine regs results).engine.sigs,
        st.spec.name = nm ∧ st.matched = true) := by
  obtain ⟨_, hord, hmat, _⟩ := runSignatures_einv fuel engine regs results hnd
  refine ⟨getVal_setVal_self _ _ _, sortByKey_pairwise _ _,
    sortByKey_perm _ _, fun v => sortByKey_filter _ v _, ?_⟩
  intro nm
  constructor
  · intro hmem
    obtain ⟨d, hd, hdn⟩ := List.mem_map.mp hmem
    obtain ⟨st, hst, hn, _, hm⟩ := hord d hd
    exact ⟨st, hst, by rw [hn, hdn], hm⟩
  · rintro ⟨st, hst, rfl, hm⟩
    exact hmat st hst hm

/-! ### Witnesses: each hypothesis-bearing claim theorem at a concrete input -/

/-- Witness for C1: severities matched in order [5, 1, 3] yield the sorted
detections [1, 3, 5], and the results map stores the sorted list. -/
theorem claim_C1_severity_sort_witness :
    (sortDets (runSignatures 4 ⟨2, 0, 0⟩ wRegs wResults).engine.order).map
      (fun d => d.severity) = [1, 3, 5] ∧
    (runSignatures 4 ⟨2, 0, 0⟩ wRegs wResults).engine.order.map
      (fun d => d.severity) = [5, 1, 3] ∧
    getVal (runSignatures 4 ⟨2, 0, 0⟩ wRegs wResults).results "signatures" =
      some (RVal.dets (sortDets
        (runSignatures 4 ⟨2, 0, 0⟩ wRegs wResults).engine.order)) ∧
    List.Pairwise (fun a b => a.severity ≤ b.severity)
      (sortDets (runSignatures 4 ⟨2, 0, 0⟩ wRegs wResults).engine.order) :=
  ⟨rfl, rfl,
    (claim_C1_severity_sort 4 ⟨2, 0, 0⟩ wRegs wResults (by decide)).1,
    (claim_C1_severity_sort 4 ⟨2, 0, 0⟩ wRegs wResults (by decide)).2.1⟩

/-- Witness for C3: A's truthy `on_call` marks A matched, B is notified via
`on_signature` with A as payload, and B's truthy `on_signature` marks B
matched in the same dispatch. -/
theorem claim_C3_match_propagation_witness :
    matchedAt (call_signature 2 c3Eng 0 c3H).1 0 = true ∧
    (⟨.dispatched, "B", "on_signature", some "A"⟩ : Ev) ∈
      (call_signature 2 c3Eng 0 c3H).2 ∧
    matchedAt (call_signature 2 c3Eng 0 c3H).1 1 = true :=
  ⟨(claim_C3_match_propagation 2 c3Eng 0 c3H c3ASt rfl rfl rfl
      (Nat.le_refl 2)).1,
   (claim_C3_match_propagation 2 c3Eng 0 c3H c3ASt rfl rfl rfl
      (Nat.le_refl 2)).2.1 1 c3BSt rfl,
   (claim_C3_match_propagation 2 c3Eng 0 c3H c3ASt rfl rfl rfl
      (Nat.le_refl 2)).2.2 1 c3BSt rfl rfl rfl⟩

/-- Witness for C5: the processing stage visits both modules in order,
stores the successful module's contribution, and the auxiliary stage visits
its module when instantiation succeeds. -/
theorem claim_C5_fault_isolation_amended_witness :
    (runProcessing [pmodB, pmodA]).2 =
      (sortByKey (fun m => m.order) [pmodB, pmodA]).map
        (fun m => m.name) ∧
    getValP (runProcessing [pmodB, pmodA]).1 pmodA.key = pContrib pmodA ∧
    (runReporting ([] : List RMod)).2 =
      (sortByKey (fun m => m.order) ([] : List RMod)).map
        (fun m => m.name) ∧
    (runAuxStart [auxB]).2 = [auxB].map (fun m => m.name) :=
  ⟨claim_C5_fault_isolation_amended.1 [pmodB, pmodA],
   claim_C5_fault_isolation_amended.2.1 [pmodB, pmodA] (by decide) pmodA
     (by decide),
   claim_C5_fault_isolation_amended.2.2.1 [],
   claim_C5_fault_isolation_amended.2.2.2 [auxB] (by decide)⟩

/-- Witness for C6: the raising `on_call` handler is caught, the engine is
unchanged and only this signature's dispatch/invocation events are
emitted. -/
theorem claim_C6_handler_exception_contained_witness :
    call_signature 1 c6Eng 0 c6H =
      (c6Eng, [⟨.dispatched, "E", "on_call", none⟩,
               ⟨.invoked, "E", "on_call", none⟩]) ∧
    matchedAt (call_signature 1 c6Eng 0 c6H).1 0 = matchedAt c6Eng 0 :=
  ⟨(claim_C6_handler_exception_contained 1 c6Eng 0 c6H c6St () rfl rfl rfl
      (Nat.le_refl 1)).1,
   (claim_C6_handler_exception_contained 1 c6Eng 0 c6H c6St () rfl rfl rfl
      (Nat.le_refl 1)).2.1⟩

/-- Witness for C7: the CreateFileW-filtered signature never receives the
ReadFile call, while the unfiltered signature receives it. -/
theorem claim_C7_filter_gate_witness :
    (⟨.dispatched, "F", "on_call", some "ReadFile"⟩ : Ev) ∉
      (replayOneCall 1 c7Proc 0 c7Call c7Eng).2 ∧
    (⟨.dispatched, "G", "on_call", some "ReadFile"⟩ : Ev) ∈
      (replayOneCall 1 c7Proc 0 c7Call c7Eng).2 := by
  constructor
  · intro hmem
    have hsp := (claim_C7_filter_gate 1 c7Eng c7Proc 0 c7Call 0
      ⟨c7F, false, 0, 0⟩ rfl (by decide) (Nat.le_refl 1)).mp hmem
    have h2 := hsp.2.1 (by decide)
    revert h2
    decide
  · exact (claim_C7_filter_gate 1 c7Eng c7Proc 0 c7Call 1
      ⟨c7G, false, 0, 0⟩ rfl (by decide) (Nat.le_refl 1)).mpr
      (by refine ⟨fun h => absurd rfl h, fun h => absurd rfl h,
        fun h => absurd rfl h⟩)

/-- Witness for C8: registering appends, a foreign group is untouched, and
one processing run leaves the registry's list order-sorted. -/
theorem claim_C8_registry_amended_witness :
    list_plugins (register_plugin ([] : Registry PMod) "g" pmodA) "g" =
      list_plugins ([] : Registry PMod) "g" ++ [pmodA] ∧
    list_plugins (register_plugin ([] : Registry PMod) "g" pmodA) "h" =
      list_plugins ([] : Registry PMod) "h" ∧
    list_plugins (runProcessingReg regBA).1 "processing" =
      sortByKey (fun m => m.order) (list_plugins regBA "processing") :=
  ⟨claim_C8_registry_amended.1 [] "g" pmodA,
   claim_C8_registry_amended.2.1 [] "g" "h" pmodA (by decide),
   claim_C8_registry_amended.2.2.2.2 regBA (by decide)⟩

/-- Witness for C9: the inactive signature's dispatch emits only the
`dispatched` event and leaves the engine unchanged, although its handler
would have returned a match. -/
theorem claim_C9_inactive_skips_handler_witness :
    call_signature 1 c9Eng 0 c9H =
      (c9Eng, [⟨.dispatched, "I", "on_call", none⟩]) ∧
    matchedAt (call_signature 1 c9Eng 0 c9H).1 0 = matchedAt c9Eng 0 :=
  ⟨(claim_C9_inactive_skips_handler 1 c9Eng 0 c9H c9St rfl rfl
      (Nat.le_refl 1)).1,
   (claim_C9_inactive_skips_handler 1 c9Eng 0 c9H c9St rfl rfl
      (Nat.le_refl 1)).2.2⟩

/-- Witness for C10: the just-matched signature A itself receives an
`on_signature` notification carrying its own name. -/
theorem claim_C10_cascade_includes_self_witness :
    (⟨.dispatched, "A", "on_signature", some "A"⟩ : Ev) ∈
      (call_signature 2 c3Eng 0 c3H).2 :=
  claim_C10_cascade_includes_self 2 c3Eng 0 c3H c3ASt rfl rfl rfl
    (Nat.le_refl 2)

end Cuckoo
